import Mathlib

/-
Shallow embedding of the two validation scripts of this repository,
`.github/scripts/validate.py` (namespace `Validate`) and
`.github/scripts/validate_index.py` (namespace `ValidateIndex`).

Modelling conventions:
  * Python strings are Lean `String`; the Python string operations used by the
    scripts (`strip`, `lower`, `upper`, `startswith`, `endswith`, `in`,
    `split`, `lstrip`) are reimplemented below on `List Char` so that they can
    be reasoned about directly.  They agree with CPython on ASCII data, which
    is all the scripts ever handle.
  * `os.path.normpath`, `os.path.isabs` and `os.path.basename` are the POSIX
    implementations, translated clause by clause from CPython `posixpath`.
  * The repository working tree is a list of repository-relative file paths
    (the paths `os.walk` would discover, without a leading `./`); filesystem
    existence (`os.path.exists`) is membership in that list.
  * Parsed YAML documents are values of the inductive type `YVal`; `dict`
    entries are association lists whose keys are assumed distinct, as keys of
    a parsed YAML mapping are.  Python `dict.get(k)` returning `None` for an
    absent key is modelled by `pyGet` returning `YVal.null`.
  * External git commands are ports: the stdout of `git rev-list --count`
    (or `none` when the command fails with `CalledProcessError`) is a
    parameter, and the changed-file list of `git diff --name-status` is a
    parameter of `Validate.main`.
  * Process termination: `ProcResult.done errors code` is a run that printed
    the JSON findings list `errors` and exited with `code`;
    `ProcResult.abort code` is a run that exited before producing a findings
    list (as `validate_index.py` does when a git command fails).
-/

namespace AwesomeAgents

/-- Python whitespace characters (`str.strip` default set). -/
def pySpace (c : Char) : Bool :=
  c == ' ' || c == '\t' || c == '\n' || c == '\r' || c == Char.ofNat 11 || c == Char.ofNat 12

/-- List-level prefix test (used to model `str.startswith`). -/
def listPrefOf : List Char → List Char → Bool
  | [], _ => true
  | _ :: _, [] => false
  | a :: as, b :: bs => a == b && listPrefOf as bs

/-- Does `s` contain `sub` as a contiguous sublist (Python `sub in s`)? -/
def containsSub (sub s : List Char) : Bool :=
  (List.range (s.length + 1)).any (fun i => listPrefOf sub (s.drop i))

/-- Python `pre in s` (substring containment). -/
def strContains (s sub : String) : Bool := containsSub sub.data s.data

/-- Python `s.startswith(pre)`. -/
def pyStartsWith (s pre : String) : Bool := listPrefOf pre.data s.data

/-- Python `s.endswith(suf)`. -/
def pyEndsWith (s suf : String) : Bool := listPrefOf suf.data.reverse s.data.reverse

/-- Python `s.lower()` (ASCII case folding). -/
def pyLower (s : String) : String := String.mk (s.data.map Char.toLower)

/-- Python `s.upper()` (ASCII case folding). -/
def pyUpper (s : String) : String := String.mk (s.data.map Char.toUpper)

/-- Python `s.strip()` with the default whitespace set. -/
def pyStrip (s : String) : String :=
  String.mk (((s.data.dropWhile pySpace).reverse.dropWhile pySpace).reverse)

/-- Python `s.lstrip('./')`: drop every leading dot or slash character. -/
def pyLstripDotSlash (s : String) : String :=
  String.mk (s.data.dropWhile (fun c => c == '.' || c == '/'))

/-- Python `s.split(c)` on character lists; the result is always nonempty. -/
def splitChars (c : Char) : List Char → List (List Char)
  | [] => [[]]
  | x :: xs =>
    if x == c then [] :: splitChars c xs
    else
      match splitChars c xs with
      | [] => [[x]]
      | h :: t => (x :: h) :: t

/-- Python `path.split('/')`. -/
def pySplitSlash (s : String) : List String :=
  (splitChars '/' s.data).map String.mk

/-- Python `'/'.join(parts)`. -/
def joinSlash : List String → String
  | [] => ""
  | [a] => a
  | a :: b :: rest => a ++ "/" ++ joinSlash (b :: rest)

/-- Python `', '.join(parts)`. -/
def commaJoin : List String → String
  | [] => ""
  | [a] => a
  | a :: b :: rest => a ++ ", " ++ commaJoin (b :: rest)

/-- POSIX `os.path.isabs`. -/
def pyIsAbs (s : String) : Bool := pyStartsWith s "/"

/-- Number of initial slashes kept by POSIX `normpath` (0, 1 or 2). -/
def initialSlashes (s : String) : Nat :=
  if pyStartsWith s "/" then
    if pyStartsWith s "//" && !(pyStartsWith s "///") then 2 else 1
  else 0

/-- The component loop of POSIX `normpath`, translated clause by clause. -/
def normComps (isAbs : Bool) : List String → List String → List String
  | acc, [] => acc
  | acc, comp :: rest =>
    if comp == "" || comp == "." then normComps isAbs acc rest
    else if comp != ".." || (!isAbs && acc.isEmpty)
        || (!acc.isEmpty && acc.getLast? == some "..") then
      normComps isAbs (acc ++ [comp]) rest
    else if !acc.isEmpty then normComps isAbs acc.dropLast rest
    else normComps isAbs acc rest

/-- Invariant of the `normpath` component loop on relative paths: every
parent-traversal component sits in a leading run, so a normalized relative
path can only mention `..` at its front. -/
def dotsLead (acc : List String) : Prop :=
  ∃ n rest, acc = List.replicate n ".." ++ rest ∧ ".." ∉ rest

/-- The slash-prefixed rejoin at the end of POSIX `normpath`:
`'/' * initial_slashes + '/'.join(comps)`. -/
def normpathOut (k : Nat) (joined : String) : String :=
  String.mk (List.replicate k '/') ++ joined

/-- POSIX `os.path.normpath` (`return path or '.'` is the final `if`). -/
def normpath (p : String) : String :=
  if p == "" then "." else
  if normpathOut (initialSlashes p)
      (joinSlash (normComps (initialSlashes p != 0) [] (pySplitSlash p))) == "" then "."
  else normpathOut (initialSlashes p)
      (joinSlash (normComps (initialSlashes p != 0) [] (pySplitSlash p)))

/-- POSIX `os.path.basename`: the part after the last slash. -/
def basename (s : String) : String := (pySplitSlash s).getLastD ""

/-- Decimal digit-run parser used to model Python `int(...)`. -/
def pyParseDigits : List Char → Option Nat
  | [] => none
  | cs =>
    if cs.all Char.isDigit then
      some (cs.foldl (fun a c => a * 10 + (c.toNat - 48)) 0)
    else none

/-- Python `int(s)` on an already-stripped string: an optional sign followed
by at least one decimal digit (the scripts only ever parse the output of
`git rev-list --count`); anything else raises `ValueError`, modelled as
`none`. -/
def pyParseInt (s : String) : Option Int :=
  match s.data with
  | '+' :: cs => (pyParseDigits cs).map (fun n => (n : Int))
  | '-' :: cs => (pyParseDigits cs).map (fun n => -(n : Int))
  | cs => (pyParseDigits cs).map (fun n => (n : Int))

/-- `os.path.exists` against the modelled working tree. -/
def osExists (fs : List String) (p : String) : Bool := fs.contains p

/-- Parsed YAML values (scalars, sequences, mappings). -/
inductive YVal where
  | str (s : String)
  | int (n : Int)
  | bool (b : Bool)
  | null
  | list (items : List YVal)
  | dict (kvs : List (String × YVal))

/-- Python `d.get(key)`: the value, or `None` when the key is absent. -/
def pyGet (kvs : List (String × YVal)) (key : String) : YVal :=
  match kvs.find? (fun kv => kv.1 == key) with
  | some kv => kv.2
  | none => YVal.null

/-- Python `d.get(key, default)`. -/
def pyGetD (kvs : List (String × YVal)) (key : String) (dflt : YVal) : YVal :=
  match kvs.find? (fun kv => kv.1 == key) with
  | some kv => kv.2
  | none => dflt

/-- The key list of a parsed mapping (`agent.keys()`); keys of a parsed YAML
mapping are distinct, so no deduplication is modelled. -/
def listKeys (kvs : List (String × YVal)) : List String := kvs.map Prod.fst

/-- Python `key in d`. -/
def hasKey (kvs : List (String × YVal)) (key : String) : Bool :=
  (listKeys kvs).contains key

/-- Python `isinstance(v, str)`. -/
def isStrVal : YVal → Bool
  | .str _ => true
  | _ => false

/-- Python `str(v)` for the scalar values the scripts feed it.  The two call
sites (`str(agent.get("target",""))` and `str(agent.get("source",""))` in
`validate.py`) only ever receive scalars in the scenarios the claims cover;
the container renderings are abbreviated. -/
def pyStr : YVal → String
  | .str s => s
  | .int n => toString n
  | .bool true => "True"
  | .bool false => "False"
  | .null => "None"
  | .list _ => "[...]"
  | .dict _ => "{...}"

/-- The test `isinstance(v, str) and v.strip()` used by `validate.py` for the
three required fields. -/
def nonEmptyStrCheck : YVal → Bool
  | .str s => pyStrip s != ""
  | _ => false

/-- `for i, agent in enumerate(agents)` accumulating per-entry findings in
order (the Python loop appends each entry's findings before the next). -/
def entriesErrors (f : Nat → YVal → List String) : Nat → List YVal → List String
  | _, [] => []
  | i, a :: rest => f i a ++ entriesErrors f (i + 1) rest

/-- Result of trying to load and parse `index.yaml`. -/
inductive LoadResult where
  | missing
  | unparsable (msg : String)
  | ok (data : YVal)

/-- Result of loading `index.yaml` for `validate_index.py`, whose
`validate_index_yaml` assumes a mapping at the top level (a non-mapping
document makes the source raise `TypeError` on `'agents' not in data`;
no claim concerns that case, so the model's domain is mappings). -/
inductive LoadResultIdx where
  | missing
  | unparsable (msg : String)
  | ok (kvs : List (String × YVal))

/-- Outcome of a whole process run. -/
inductive ProcResult where
  | abort (code : Nat)
  | done (errors : List String) (code : Nat)
deriving DecidableEq

/-- The branch-behind finding text shared by both scripts. -/
def behindMsg : String :=
  "Branch is behind main - please rebase or merge main into your branch"

/-- The `f"Agent entry {i+1}"` piece shared by every per-entry finding. -/
def agentPre (i : Nat) : String := "Agent entry " ++ toString (i + 1)

namespace Validate

/-- Finding text for a non-mapping entry. -/
def mappingMsg (i : Nat) : String :=
  agentPre i ++ " must be a mapping (dictionary)"

/-- Finding text for a required field that is not a non-empty string. -/
def reqFieldMsg (i : Nat) (key : String) : String :=
  agentPre i ++ (" \x27" ++ (key ++ "\x27 must be a non-empty string"))

/-- Finding text for a target without the `.md` extension. -/
def targetExtMsg (i : Nat) : String :=
  agentPre i ++ " \x27target\x27 must end with .md"

/-- Finding text for an absolute or parent-traversing source path. -/
def unsafeSourceMsg (i : Nat) : String :=
  agentPre i ++ " invalid \x27source\x27 path: must be relative and not traverse parents"

/-- Finding text for a source path that does not exist in the tree. -/
def danglingMsg (i : Nat) (source : String) : String :=
  agentPre i ++ (" \x27source\x27 file not found in commit: " ++ source)

/-- The `for key in ("name", "source", "target")` loop of `validate.py`. -/
def requiredFieldErrors (i : Nat) (kvs : List (String × YVal)) : List String :=
  ["name", "source", "target"].filterMap (fun key =>
    if nonEmptyStrCheck (pyGet kvs key) then none else some (reqFieldMsg i key))

/-- The target-extension check of `validate.py`. -/
def targetErrors (i : Nat) (kvs : List (String × YVal)) : List String :=
  if pyStrip (pyStr (pyGetD kvs "target" (.str ""))) != ""
      && !(pyEndsWith (pyLower (pyStrip (pyStr (pyGetD kvs "target" (.str ""))))) ".md") then
    [targetExtMsg i]
  else []

/-- The `if require_source_exists:` block of `validate.py`: path safety first,
then (only otherwise) existence. -/
def sourceErrors (require : Bool) (fs : List String) (i : Nat)
    (kvs : List (String × YVal)) : List String :=
  if require then
    let source := pyStrip (pyStr (pyGetD kvs "source" (.str "")))
    if source != "" then
      let norm := normpath source
      if pyIsAbs norm || pyStartsWith norm ".." then [unsafeSourceMsg i]
      else if !(osExists fs norm) then [danglingMsg i source]
      else []
    else []
  else []

/-- Per-entry findings of `validate.py`. -/
def entryErrors (require : Bool) (fs : List String) (i : Nat) (agent : YVal) : List String :=
  match agent with
  | .dict kvs => requiredFieldErrors i kvs ++ targetErrors i kvs ++ sourceErrors require fs i kvs
  | _ => [mappingMsg i]

/-- `validate_index_yaml(require_source_exists)` of `validate.py`. -/
def validate_index_yaml (require_source_exists : Bool) (fs : List String)
    (load : LoadResult) : List String :=
  match load with
  | .missing => ["Missing index.yaml file"]
  | .unparsable e => ["Invalid YAML in index.yaml: " ++ e]
  | .ok data =>
    match data with
    | .dict kvs =>
      match pyGet kvs "agents" with
      | .null => ["Missing \x27agents\x27 key in index.yaml"]
      | .list agents => entriesErrors (entryErrors require_source_exists fs) 0 agents
      | _ => ["\x27agents\x27 must be a list in index.yaml"]
    | _ => ["index.yaml must be a YAML mapping (dictionary) at the top level"]

/-- `index_yaml_changed` of `validate.py`. -/
def index_yaml_changed (changed : List (String × String)) : Bool :=
  changed.any (fun sp => sp.2 == "index.yaml")

/-- One changed-file record triggers `new_non_doc_md_added`: status begins
with `A` (case-insensitive), the path ends in `.md` (case-insensitive) and
its base name is not `readme.md` or `contributing.md` (case-insensitive). -/
def addedNonDocMd (sp : String × String) : Bool :=
  (match sp.1.data with
   | [] => false
   | c :: _ => Char.toUpper c == 'A')
  && pyEndsWith (pyLower sp.2) ".md"
  && !(pyLower (basename sp.2) == "readme.md" || pyLower (basename sp.2) == "contributing.md")

/-- `new_non_doc_md_added` of `validate.py` (a loop with early return,
equivalent to an existential over the changed list). -/
def new_non_doc_md_added (changed : List (String × String)) : Bool :=
  changed.any addedNonDocMd

/-- `is_behind_main` of `validate.py`.  `run` returns `""` when the git
command fails; `int("")` then raises `ValueError`, which the surrounding
`except Exception` turns into `False`. -/
def is_behind_main : Option String → Bool
  | none => false
  | some out =>
    match pyParseInt (pyStrip out) with
    | some n => decide (n > 0)
    | none => false

/-- The sync findings accumulated first by `main` of `validate.py`. -/
def syncErrors (revList : Option String) : List String :=
  if is_behind_main revList then [behindMsg] else []

/-- `main` of `validate.py`: sync check, then either the skip path (no
manifest validation at all) or the manifest validation with
`require_source_exists` tied to whether `index.yaml` changed.  Returns the
printed findings list and the exit status (`1 if errors else 0`). -/
def main (changed : List (String × String)) (revList : Option String)
    (load : LoadResult) (fs : List String) : List String × Nat :=
  if !index_yaml_changed changed && !new_non_doc_md_added changed then
    (syncErrors revList, if (syncErrors revList).isEmpty then 0 else 1)
  else
    (syncErrors revList ++ validate_index_yaml (index_yaml_changed changed) fs load,
     if (syncErrors revList ++ validate_index_yaml (index_yaml_changed changed) fs load).isEmpty
     then 0 else 1)

end Validate

namespace ValidateIndex

/-- `is_valid_path` of `validate_index.py`: a format-only check (the source
comment says it does not test existence). -/
def is_valid_path (path : String) : Bool × Option String :=
  if path == "" || pyStrip path == "" then
    (false, some "Path cannot be empty")
  else if pyIsAbs path then
    (false, some "Absolute paths are not allowed")
  else
    let norm := normpath path
    if strContains norm ".." || pyStartsWith norm "/" then
      (false, some "Invalid path patterns (e.g., \x27..\x27)")
    else if pyEndsWith (pyLower norm) ".md" || pyEndsWith (pyLower norm) ".yaml"
        || pyEndsWith (pyLower norm) "/" || !(strContains norm "/") then
      (true, none)
    else
      (false, some ("Path must be a markdown file (.md), YAML file (.yaml), or directory (end with \x27/\x27): " ++ path))

/-- Finding text for a non-mapping entry. -/
def dictMsg (i : Nat) : String :=
  agentPre i ++ " must be a dictionary"

/-- Finding text listing every missing required key of an entry. -/
def missingKeysMsg (i : Nat) (ks : List String) : String :=
  agentPre i ++ (" missing keys: " ++ commaJoin ks)

/-- Finding text listing every unexpected key of an entry. -/
def extraKeysMsg (i : Nat) (ks : List String) : String :=
  agentPre i ++ (" has extra keys: " ++ commaJoin ks)

/-- Finding text for a non-string `name`. -/
def nameStrMsg (i : Nat) : String :=
  agentPre i ++ " \x27name\x27 must be a string"

/-- Finding text for a non-string `source` or `target`. -/
def fieldStrMsg (i : Nat) (field : String) : String :=
  agentPre i ++ (" \x27" ++ (field ++ "\x27 must be a string"))

/-- Finding text for an empty `target`. -/
def targetEmptyMsg (i : Nat) : String :=
  agentPre i ++ " \x27target\x27 field cannot be empty"

/-- Finding text for a `target` whose normalized form contains `..`. -/
def targetDangerMsg (i : Nat) : String :=
  agentPre i ++ " invalid \x27target\x27: Dangerous path patterns (e.g., \x27..\x27)"

/-- Finding text wrapping an `is_valid_path` reason for a field. -/
def invalidFieldMsg (i : Nat) (field reason : String) : String :=
  agentPre i ++ (" invalid \x27" ++ (field ++ ("\x27: " ++ reason)))

/-- Finding text for an orphan markdown file. -/
def orphanMsg (md : String) : String :=
  "Markdown file \x27" ++ (md ++ "\x27 is not referenced in the \x27source\x27 field of any agent in index.yaml")

/-- The missing required keys of an entry, in required-key order.  CPython
iterates the set difference in hash order; the joined message lists the same
keys. -/
def missingKeys (kvs : List (String × YVal)) : List String :=
  ["name", "source", "target"].filter (fun k => !(hasKey kvs k))

/-- The unexpected keys of an entry, in insertion order (CPython iterates the
set difference in hash order; the joined message lists the same keys). -/
def extraKeys (kvs : List (String × YVal)) : List String :=
  (listKeys kvs).filter (fun k => !(k == "name" || k == "source" || k == "target"))

/-- The `for field in ['source', 'target']` body of `validate_index.py`:
`target` gets only an emptiness and a `..`-pattern check (and no check at all
when absolute); `source` goes through `is_valid_path`. -/
def fieldErrors (i : Nat) (kvs : List (String × YVal)) (field : String) : List String :=
  if hasKey kvs field then
    match pyGet kvs field with
    | .str s =>
      if field == "target" then
        if s == "" || pyStrip s == "" then [targetEmptyMsg i]
        else if !(pyIsAbs s) then
          if strContains (normpath s) ".." then [targetDangerMsg i] else []
        else []
      else
        match is_valid_path s with
        | (true, _) => []
        | (false, reason) => [invalidFieldMsg i field (reason.getD "None")]
    | _ => [fieldStrMsg i field]
  else []

/-- Per-entry findings of `validate_index.py`. -/
def entryErrors (i : Nat) (agent : YVal) : List String :=
  match agent with
  | .dict kvs =>
    (if !(missingKeys kvs).isEmpty then [missingKeysMsg i (missingKeys kvs)] else [])
    ++ (if !(extraKeys kvs).isEmpty then [extraKeysMsg i (extraKeys kvs)] else [])
    ++ (if hasKey kvs "name" && !(isStrVal (pyGet kvs "name")) then [nameStrMsg i] else [])
    ++ fieldErrors i kvs "source"
    ++ fieldErrors i kvs "target"
  | _ => [dictMsg i]

/-- The name `os.walk` reports for the tree file `p`, or `none` when the file
is skipped: the walk visits `./` ++ `p`, normalizes the joined path, strips
every leading dot or slash character (so a path under a dot-directory is
reported under a mangled name), skips `README.md` and `CONTRIBUTING.md` by
base name, and skips names still starting with a dot (dead after the strip). -/
def walkName (p : String) : Option String :=
  if pyEndsWith (pyLower p) ".md" then
    let rel := pyLstripDotSlash (normpath ("./" ++ p))
    if pyUpper (basename rel) == "README.MD" || pyUpper (basename rel) == "CONTRIBUTING.MD" then
      none
    else if pyStartsWith rel "." then none
    else some rel
  else none

/-- `get_md_files_in_repo` of `validate_index.py` over the modelled tree. -/
def get_md_files_in_repo (fs : List String) : List String := fs.filterMap walkName

/-- The entry `source` values collected into the Python set `sources`. -/
def sourceValues (agents : List YVal) : List YVal :=
  agents.filterMap (fun a =>
    match a with
    | .dict kvs => if hasKey kvs "source" then some (pyGet kvs "source") else none
    | _ => none)

/-- Python `md_file in sources` (a string equals only string members). -/
def sourcesContainStr (sources : List YVal) (s : String) : Bool :=
  sources.any (fun v =>
    match v with
    | .str t => t == s
    | _ => false)

/-- `check_md_files_in_yaml` of `validate_index.py`. -/
def check_md_files_in_yaml (kvs : List (String × YVal)) (mdFiles : List String) : List String :=
  match pyGet kvs "agents" with
  | .list agents =>
    mdFiles.filterMap (fun m =>
      if sourcesContainStr (sourceValues agents) m then none else some (orphanMsg m))
  | _ => []

/-- `validate_index_yaml` of `validate_index.py`: schema findings, then the
orphan findings; note there is no source-existence (dangling) check. -/
def validate_index_yaml (fs : List String) (load : LoadResultIdx) : List String :=
  match load with
  | .missing => ["Missing index.yaml file"]
  | .unparsable e => ["Invalid YAML in index.yaml: " ++ e]
  | .ok kvs =>
    (match pyGet kvs "agents" with
     | .null => ["Missing \x27agents\x27 key in index.yaml"]
     | .list agents => entriesErrors entryErrors 0 agents
     | _ => ["\x27agents\x27 must be a list in index.yaml"])
    ++ check_md_files_in_yaml kvs (get_md_files_in_repo fs)

/-- `main` of `validate_index.py`.  `run_git_command` calls `sys.exit(1)` on a
failed command before any finding is produced, and an unparsable rev-list
count makes `int()` raise an uncaught `ValueError`; both are `abort`. -/
def main : Option String → LoadResultIdx → List String → ProcResult
  | none, _, _ => .abort 1
  | some out, load, fs =>
    match pyParseInt (pyStrip out) with
    | none => .abort 1
    | some n =>
      .done ((if n > 0 then [behindMsg] else []) ++ validate_index_yaml fs load)
        (if ((if n > 0 then [behindMsg] else []) ++ validate_index_yaml fs load).isEmpty
         then 0 else 1)

end ValidateIndex

/-- Does the (normalized) path contain `..` as a whole path segment? -/
def containsParentSeg (s : String) : Bool := (pySplitSlash s).contains ".."

/-- The path-safety classification exactly as the specification states it, for
comparison with `ValidateIndex.is_valid_path`: empty or whitespace-only is
unsafe; an absolute path is unsafe; a normalized form containing a
parent-traversal segment is unsafe; otherwise the path is safe if and only if
it ends in an allowed document or manifest extension or denotes a directory by
a trailing separator. -/
def spec_path_rules (path : String) : Bool :=
  if pyStrip path == "" then false
  else if pyIsAbs path then false
  else if containsParentSeg (normpath path) then false
  else
    pyEndsWith (pyLower path) ".md" || pyEndsWith (pyLower path) ".yaml"
    || pyEndsWith path "/"

/-- The path-safety classification as amended to match the code: the
traversal test is a substring test on the normalized form, and the final rule
accepts exactly the paths whose normalized form ends in `.md`, `.yaml` or `/`
(case-insensitive) or contains no separator at all. -/
def amended_path_rules (path : String) : Bool :=
  if pyStrip path == "" then false
  else if pyIsAbs path then false
  else if strContains (normpath path) ".." then false
  else
    pyEndsWith (pyLower (normpath path)) ".md"
    || pyEndsWith (pyLower (normpath path)) ".yaml"
    || pyEndsWith (pyLower (normpath path)) "/"
    || !(strContains (normpath path) "/")

/-! ### Facts about the modelled Python string primitives -/

lemma strMk_data (l : List Char) : (String.mk l).data = l := rfl

lemma strMk_eta (s : String) : String.mk s.data = s := rfl

lemma str_ne_of_get (a b : String) (n : Nat) (h : a.data.get? n ≠ b.data.get? n) :
    a ≠ b := fun he => h (by rw [he])

lemma append_right_ne (a : String) {x y : String} (h : x ≠ y) : a ++ x ≠ a ++ y := by
  intro he
  apply h
  have hd := congrArg String.data he
  rw [String.data_append, String.data_append] at hd
  exact String.ext (List.append_cancel_left hd)

lemma append_both_inj {a b x y : String} (h : a ++ x ++ b = a ++ y ++ b) : x = y := by
  have hd := congrArg String.data h
  simp only [String.data_append] at hd
  exact String.ext (List.append_cancel_left (List.append_cancel_right hd))

lemma listPrefOf_append_self (a b : List Char) : listPrefOf a (a ++ b) = true := by
  induction a with
  | nil => rfl
  | cons x xs ih => simp [listPrefOf, ih]

lemma listPrefOf_self (a : List Char) : listPrefOf a a = true := by
  have h := listPrefOf_append_self a []
  simpa using h

lemma containsSub_of_parts (sub pre post : List Char) :
    containsSub sub (pre ++ sub ++ post) = true := by
  unfold containsSub
  rw [List.any_eq_true]
  refine ⟨pre.length, ?_, ?_⟩
  · rw [List.mem_range]
    simp [List.length_append]
    omega
  · rw [List.append_assoc, List.drop_left]
    exact listPrefOf_append_self sub post

lemma pyStrip_all_space (s : String) (h : pyStrip s = "") : ∀ c ∈ s.data, pySpace c = true := by
  unfold pyStrip at h
  have hd : ((s.data.dropWhile pySpace).reverse.dropWhile pySpace).reverse = [] :=
    congrArg String.data h
  rw [List.reverse_eq_nil_iff, List.dropWhile_eq_nil_iff] at hd
  intro c hc
  rw [← @List.takeWhile_append_dropWhile _ pySpace s.data, List.mem_append] at hc
  rcases hc with hc | hc
  · exact List.mem_takeWhile_imp hc
  · exact hd c (List.mem_reverse.mpr hc)

/-! ### Facts about the modelled `str.split` and `str.join` -/

lemma splitChars_cons (c x : Char) (xs : List Char) :
    splitChars c (x :: xs) =
      if x == c then [] :: splitChars c xs
      else
        match splitChars c xs with
        | [] => [[x]]
        | h :: t => (x :: h) :: t := rfl

lemma splitChars_ne_nil (c : Char) : ∀ l, splitChars c l ≠ []
  | [] => by simp [splitChars]
  | x :: xs => by
    rw [splitChars_cons]
    by_cases h : (x == c) = true
    · simp [h]
    · rw [if_neg h]
      cases hs : splitChars c xs <;> simp

lemma mem_splitChars_no_c (c : Char) : ∀ (l l₁ : List Char), l₁ ∈ splitChars c l → c ∉ l₁
  | [], l₁, h => by
    simp [splitChars] at h
    simp [h]
  | x :: xs, l₁, h => by
    rw [splitChars_cons] at h
    by_cases hx : (x == c) = true
    · rw [if_pos hx] at h
      rcases List.mem_cons.mp h with rfl | h
      · simp
      · exact mem_splitChars_no_c c xs l₁ h
    · rw [if_neg hx] at h
      cases hs : splitChars c xs with
      | nil => exact absurd hs (splitChars_ne_nil c xs)
      | cons hd tl =>
        rw [hs] at h
        rcases List.mem_cons.mp h with rfl | h
        · intro hmem
          rcases List.mem_cons.mp hmem with rfl | hmem
          · exact hx (by simp)
          · exact mem_splitChars_no_c c xs hd (hs ▸ List.mem_cons_self hd tl) hmem
        · exact mem_splitChars_no_c c xs l₁ (hs ▸ List.mem_cons_of_mem hd h)

lemma splitChars_structure (c : Char) : ∀ l : List Char,
    ∃ h t, splitChars c l = h :: t ∧ (∃ post, l = h ++ post) ∧
      ∀ l₁ ∈ t, ∃ pre post, l = pre ++ l₁ ++ post
  | [] => ⟨[], [], rfl, ⟨[], rfl⟩, by simp⟩
  | x :: xs => by
    obtain ⟨h, t, hs, ⟨post, hpost⟩, htail⟩ := splitChars_structure c xs
    rw [splitChars_cons]
    by_cases hx : (x == c) = true
    · refine ⟨[], splitChars c xs, by rw [if_pos hx], ⟨x :: xs, rfl⟩, ?_⟩
      intro l₁ hl₁
      rw [hs] at hl₁
      rcases List.mem_cons.mp hl₁ with rfl | hl₁
      · exact ⟨[x], post, by simp [hpost]⟩
      · obtain ⟨pre, post', hp⟩ := htail l₁ hl₁
        exact ⟨x :: pre, post', by simp [hp]⟩
    · refine ⟨x :: h, t, ?_, ⟨post, by simp [hpost]⟩, ?_⟩
      · rw [if_neg hx, hs]
      · intro l₁ hl₁
        obtain ⟨pre, post', hp⟩ := htail l₁ hl₁
        exact ⟨x :: pre, post', by simp [hp]⟩

lemma mem_splitChars_parts (c : Char) (l l₁ : List Char) (hm : l₁ ∈ splitChars c l) :
    ∃ pre post, l = pre ++ l₁ ++ post := by
  obtain ⟨h, t, hs, ⟨post, hpost⟩, htail⟩ := splitChars_structure c l
  rw [hs] at hm
  rcases List.mem_cons.mp hm with rfl | hm
  · exact ⟨[], post, by simp [hpost]⟩
  · exact htail l₁ hm

lemma splitChars_of_no_c (c : Char) : ∀ l : List Char, c ∉ l → splitChars c l = [l]
  | [], _ => rfl
  | x :: xs, h => by
    rw [splitChars_cons, if_neg (by simp only [beq_iff_eq]; rintro rfl; simp_all),
      splitChars_of_no_c c xs (by simp_all)]

lemma splitChars_append_cons (c : Char) : ∀ (l₁ l₂ : List Char), c ∉ l₁ →
    splitChars c (l₁ ++ c :: l₂) = l₁ :: splitChars c l₂
  | [], l₂, _ => by simp [splitChars_cons]
  | x :: xs, l₂, h => by
    rw [List.cons_append, splitChars_cons, if_neg (by simp only [beq_iff_eq]; rintro rfl; simp_all),
      splitChars_append_cons c xs l₂ (by simp_all)]

lemma splitChars_replicate (c : Char) : ∀ (k : Nat) (l : List Char),
    splitChars c (List.replicate k c ++ l) = List.replicate k [] ++ splitChars c l
  | 0, l => by simp
  | k + 1, l => by
    rw [List.replicate_succ, List.cons_append, splitChars_cons, if_pos (by simp),
      splitChars_replicate c k l, List.replicate_succ, List.cons_append]

lemma mem_pySplitSlash_parts (s x : String) (hx : x ∈ pySplitSlash s) :
    ∃ pre post, s.data = pre ++ x.data ++ post := by
  unfold pySplitSlash at hx
  rw [List.mem_map] at hx
  obtain ⟨l₁, hl₁, rfl⟩ := hx
  obtain ⟨pre, post, h⟩ := mem_splitChars_parts '/' s.data l₁ hl₁
  exact ⟨pre, post, by rw [strMk_data]; exact h⟩

lemma mem_pySplitSlash_strContains (s x : String) (hx : x ∈ pySplitSlash s) :
    strContains s x = true := by
  obtain ⟨pre, post, h⟩ := mem_pySplitSlash_parts s x hx
  unfold strContains
  rw [h]
  exact containsSub_of_parts _ _ _

lemma mem_pySplitSlash_no_slash (s x : String) (hx : x ∈ pySplitSlash s) : '/' ∉ x.data := by
  unfold pySplitSlash at hx
  rw [List.mem_map] at hx
  obtain ⟨l₁, hl₁, rfl⟩ := hx
  rw [strMk_data]
  exact mem_splitChars_no_c '/' s.data l₁ hl₁

lemma pySplitSlash_joinSlash : ∀ comps : List String, comps ≠ [] →
    (∀ x ∈ comps, '/' ∉ x.data) → pySplitSlash (joinSlash comps) = comps
  | [], h, _ => absurd rfl h
  | [a], _, hs => by
    show pySplitSlash a = [a]
    unfold pySplitSlash
    rw [splitChars_of_no_c '/' a.data (hs a (by simp))]
    simp [strMk_eta]
  | a :: b :: t, _, hs => by
    have ih := pySplitSlash_joinSlash (b :: t) (by simp)
      (fun x hx => hs x (List.mem_cons_of_mem a hx))
    show pySplitSlash (a ++ "/" ++ joinSlash (b :: t)) = a :: b :: t
    unfold pySplitSlash
    have hd : (a ++ "/" ++ joinSlash (b :: t)).data
        = a.data ++ '/' :: (joinSlash (b :: t)).data := by
      rw [String.data_append, String.data_append]
      simp
    rw [hd, splitChars_append_cons '/' a.data _ (hs a (by simp))]
    rw [List.map_cons, strMk_eta]
    exact congrArg (List.cons a) ih

lemma empty_append_str (s : String) : "" ++ s = s :=
  String.ext (by rw [String.data_append]; rfl)

lemma joinSlash_cons_eq (a : String) (t : List String) :
    joinSlash (a :: t) = a ∨ ∃ r : String, joinSlash (a :: t) = a ++ r := by
  cases t with
  | nil => exact Or.inl rfl
  | cons b t' =>
    refine Or.inr ⟨"/" ++ joinSlash (b :: t'), ?_⟩
    show a ++ "/" ++ joinSlash (b :: t') = a ++ ("/" ++ joinSlash (b :: t'))
    rw [String.append_assoc]

/-! ### Invariants of the `normpath` component loop -/

lemma mem_of_getLastq {α : Type} {l : List α} {a : α} (h : l.getLast? = some a) : a ∈ l := by
  obtain ⟨ys, rfl⟩ := List.getLast?_eq_some_iff.mp h
  simp

lemma normComps_cons (isAbs : Bool) (acc : List String) (comp : String) (rest : List String) :
    normComps isAbs acc (comp :: rest) =
      if comp == "" || comp == "." then normComps isAbs acc rest
      else if comp != ".." || (!isAbs && acc.isEmpty)
          || (!acc.isEmpty && acc.getLast? == some "..") then
        normComps isAbs (acc ++ [comp]) rest
      else if !acc.isEmpty then normComps isAbs acc.dropLast rest
      else normComps isAbs acc rest := rfl

lemma mem_normComps (isAbs : Bool) : ∀ (comps acc : List String) (x : String),
    x ∈ normComps isAbs acc comps → x ∈ acc ∨ x ∈ comps
  | [], _, _, h => Or.inl h
  | comp :: rest, acc, x, h => by
    rw [normComps_cons] at h
    split at h
    · rcases mem_normComps isAbs rest acc x h with h | h
      · exact Or.inl h
      · exact Or.inr (List.mem_cons_of_mem comp h)
    · split at h
      · rcases mem_normComps isAbs rest (acc ++ [comp]) x h with h | h
        · rcases List.mem_append.mp h with h | h
          · exact Or.inl h
          · simp only [List.mem_singleton] at h
            exact Or.inr (h ▸ List.mem_cons_self comp rest)
        · exact Or.inr (List.mem_cons_of_mem comp h)
      · split at h
        · rcases mem_normComps isAbs rest acc.dropLast x h with h | h
          · exact Or.inl ((List.dropLast_sublist acc).subset h)
          · exact Or.inr (List.mem_cons_of_mem comp h)
        · rcases mem_normComps isAbs rest acc x h with h | h
          · exact Or.inl h
          · exact Or.inr (List.mem_cons_of_mem comp h)

lemma normComps_ne_empty (isAbs : Bool) : ∀ (comps acc : List String),
    (∀ x ∈ acc, x ≠ "") → ∀ x ∈ normComps isAbs acc comps, x ≠ ""
  | [], _, hacc, x, hx => hacc x hx
  | comp :: rest, acc, hacc, x, hx => by
    rw [normComps_cons] at hx
    split at hx
    · exact normComps_ne_empty isAbs rest acc hacc x hx
    · next hne =>
      split at hx
      · refine normComps_ne_empty isAbs rest (acc ++ [comp]) ?_ x hx
        intro y hy
        rcases List.mem_append.mp hy with hy | hy
        · exact hacc y hy
        · simp only [List.mem_singleton] at hy
          subst hy
          simp only [Bool.or_eq_true, beq_iff_eq, not_or] at hne
          exact hne.1
      · split at hx
        · exact normComps_ne_empty isAbs rest acc.dropLast
            (fun y hy => hacc y ((List.dropLast_sublist acc).subset hy)) x hx
        · exact normComps_ne_empty isAbs rest acc hacc x hx

lemma dotsLead_append {acc : List String} {comp : String} (h : dotsLead acc)
    (hc : comp ≠ "..") : dotsLead (acc ++ [comp]) := by
  obtain ⟨n, restl, rfl, hnr⟩ := h
  refine ⟨n, restl ++ [comp], by rw [List.append_assoc], ?_⟩
  intro hm
  rcases List.mem_append.mp hm with hm | hm
  · exact hnr hm
  · simp only [List.mem_singleton] at hm
    exact hc hm.symm

lemma dotsLead_dropLast {acc : List String} (h : dotsLead acc) : dotsLead acc.dropLast := by
  obtain ⟨n, restl, rfl, hnr⟩ := h
  cases restl with
  | nil =>
    rw [List.append_nil]
    cases n with
    | zero => exact ⟨0, [], by simp, by simp⟩
    | succ m =>
      rw [List.replicate_succ', List.dropLast_concat]
      exact ⟨m, [], by simp, by simp⟩
  | cons hd tl =>
    rw [List.dropLast_append_of_ne_nil _ (by simp)]
    exact ⟨n, (hd :: tl).dropLast, rfl,
      fun hm => hnr ((List.dropLast_sublist (hd :: tl)).subset hm)⟩

lemma dotsLead_last_all {n : Nat} {restl : List String} (hnr : ".." ∉ restl)
    (hlast : (List.replicate n ".." ++ restl).getLast? = some "..") : restl = [] := by
  cases restl with
  | nil => rfl
  | cons hd tl =>
    exfalso
    rw [List.getLast?_append] at hlast
    have hsome : (hd :: tl).getLast? = some ".." := by
      cases hlt : (hd :: tl).getLast? with
      | none =>
        obtain ⟨-, hcontra⟩ := List.getLast?_eq_none_iff.mp hlt
      | some v =>
        rw [hlt] at hlast
        simpa using hlast
    exact hnr (mem_of_getLastq hsome)

lemma normComps_dotsLead : ∀ (comps acc : List String), dotsLead acc →
    dotsLead (normComps false acc comps)
  | [], _, h => h
  | comp :: rest, acc, h => by
    rw [normComps_cons]
    by_cases h1 : (comp == "" || comp == ".") = true
    · rw [if_pos h1]
      exact normComps_dotsLead rest acc h
    · rw [if_neg h1]
      by_cases h2 : (comp != ".." || (!false && acc.isEmpty)
          || (!acc.isEmpty && acc.getLast? == some "..")) = true
      · rw [if_pos h2]
        refine normComps_dotsLead rest (acc ++ [comp]) ?_
        by_cases hc : comp = ".."
        · subst hc
          rw [Bool.or_eq_true, Bool.or_eq_true] at h2
          rcases h2 with (h2 | h2) | h2
          · simp at h2
          · rw [Bool.and_eq_true, List.isEmpty_iff] at h2
            rw [h2.2]
            exact ⟨1, [], by simp, by simp⟩
          · rw [Bool.and_eq_true] at h2
            obtain ⟨n, restl, rfl, hnr⟩ := h
            have hr : restl = [] := dotsLead_last_all hnr (beq_iff_eq.mp h2.2)
            subst hr
            rw [List.append_nil, ← List.replicate_succ']
            exact ⟨n + 1, [], by rw [List.append_nil], by simp⟩
        · exact dotsLead_append h hc
      · rw [if_neg h2]
        by_cases h3 : (!acc.isEmpty) = true
        · rw [if_pos h3]
          exact normComps_dotsLead rest acc.dropLast (dotsLead_dropLast h)
        · rw [if_neg h3]
          exact normComps_dotsLead rest acc h

lemma normComps_abs_noDots : ∀ (comps acc : List String), ".." ∉ acc →
    ".." ∉ normComps true acc comps
  | [], _, h => h
  | comp :: rest, acc, h => by
    rw [normComps_cons]
    by_cases h1 : (comp == "" || comp == ".") = true
    · rw [if_pos h1]
      exact normComps_abs_noDots rest acc h
    · rw [if_neg h1]
      by_cases h2 : (comp != ".." || (!true && acc.isEmpty)
          || (!acc.isEmpty && acc.getLast? == some "..")) = true
      · rw [if_pos h2]
        refine normComps_abs_noDots rest (acc ++ [comp]) ?_
        have hcomp : comp ≠ ".." := by
          intro hceq
          subst hceq
          rw [Bool.or_eq_true, Bool.or_eq_true] at h2
          rcases h2 with (h2 | h2) | h2
          · simp at h2
          · simp at h2
          · rw [Bool.and_eq_true] at h2
            exact h (mem_of_getLastq (beq_iff_eq.mp h2.2))
        intro hm
        rcases List.mem_append.mp hm with hm | hm
        · exact h hm
        · simp only [List.mem_singleton] at hm
          exact hcomp hm.symm
      · rw [if_neg h2]
        by_cases h3 : (!acc.isEmpty) = true
        · rw [if_pos h3]
          exact normComps_abs_noDots rest acc.dropLast
            (fun hm => h ((List.dropLast_sublist acc).subset hm))
        · rw [if_neg h3]
          exact normComps_abs_noDots rest acc h

/-! ### Structure of `normpath` results -/

lemma normpathOut_zero (joined : String) : normpathOut 0 joined = joined := by
  unfold normpathOut
  exact String.ext (by rw [String.data_append]; rfl)

lemma normpath_rel_eq (p : String) (hp : p ≠ "") (h : initialSlashes p = 0) :
    normpath p =
      (if joinSlash (normComps false [] (pySplitSlash p)) == "" then "."
       else joinSlash (normComps false [] (pySplitSlash p))) := by
  unfold normpath
  rw [if_neg (by simp only [beq_iff_eq]; exact hp), h]
  rw [show ((0 : Nat) != 0) = false from rfl, normpathOut_zero]

lemma normpath_abs_eq (p : String) (hp : p ≠ "") (k' : Nat) (h : initialSlashes p = k' + 1) :
    normpath p = String.mk (List.replicate (k' + 1) '/')
        ++ joinSlash (normComps true [] (pySplitSlash p)) := by
  unfold normpath
  rw [if_neg (by simp only [beq_iff_eq]; exact hp), h]
  rw [show ((k' + 1 : Nat) != 0) = true from by simp]
  have hne : ¬(normpathOut (k' + 1)
      (joinSlash (normComps true [] (pySplitSlash p))) == "") = true := by
    rw [beq_iff_eq]
    intro he
    have hdd := congrArg String.data he
    unfold normpathOut at hdd
    rw [String.data_append, strMk_data, List.replicate_succ] at hdd
    simp at hdd
  rw [if_neg hne]
  rfl

lemma startsWith_slash_false_head {s : String} {c : Char} {cs : List Char}
    (hd : s.data = c :: cs) (hc : c ≠ '/') : pyStartsWith s "/" = false := by
  unfold pyStartsWith
  rw [hd]
  show listPrefOf ['/'] (c :: cs) = false
  simp only [listPrefOf, Bool.and_eq_false_iff]
  left
  rw [beq_eq_false_iff_ne]
  exact fun he => hc he.symm

lemma normpath_rel_not_slash (p : String) (h : initialSlashes p = 0) :
    pyStartsWith (normpath p) "/" = false := by
  by_cases hp : p = ""
  · subst hp
    rfl
  rw [normpath_rel_eq p hp h]
  by_cases hj : (joinSlash (normComps false [] (pySplitSlash p)) == "") = true
  · rw [if_pos hj]
    rfl
  rw [if_neg hj]
  cases hcc : normComps false [] (pySplitSlash p) with
  | nil =>
    rw [hcc] at hj
    exact absurd (show (joinSlash [] == "") = true from rfl) hj
  | cons a t =>
    have hmema : a ∈ normComps false [] (pySplitSlash p) := hcc ▸ List.mem_cons_self a t
    have ha_ne : a ≠ "" := normComps_ne_empty false (pySplitSlash p) [] (by simp) a hmema
    have ha_ns : ('/' : Char) ∉ a.data := by
      rcases mem_normComps false (pySplitSlash p) [] a hmema with hx | hx
      · simp at hx
      · exact mem_pySplitSlash_no_slash p a hx
    obtain ⟨ac, acs, hadata⟩ : ∃ c cs, a.data = c :: cs := by
      cases hA : a.data with
      | nil => exact absurd (String.ext (by rw [hA])) ha_ne
      | cons c cs => exact ⟨c, cs, rfl⟩
    have hac : ac ≠ '/' := fun he => ha_ns (hadata ▸ (he ▸ List.mem_cons_self ac acs))
    rcases joinSlash_cons_eq a t with he | ⟨r, he⟩
    · rw [he]
      exact startsWith_slash_false_head hadata hac
    · rw [he]
      refine @startsWith_slash_false_head _ ac (acs ++ r.data) ?_ hac
      rw [String.data_append, hadata, List.cons_append]

lemma normpath_abs_slash (p : String) (h : 0 < initialSlashes p) :
    pyStartsWith (normpath p) "/" = true := by
  have hp : p ≠ "" := by
    intro he
    subst he
    simp [initialSlashes, pyStartsWith, listPrefOf] at h
  obtain ⟨k', hk⟩ : ∃ k', initialSlashes p = k' + 1 := ⟨initialSlashes p - 1, by omega⟩
  rw [normpath_abs_eq p hp k' hk]
  unfold pyStartsWith
  rw [String.data_append, strMk_data, List.replicate_succ, List.cons_append]
  show listPrefOf ['/'] _ = true
  simp [listPrefOf]

lemma containsParentSeg_mem (s : String) (h : containsParentSeg s = true) :
    ".." ∈ pySplitSlash s := by
  unfold containsParentSeg at h
  exact List.elem_iff.mp h

lemma pySplitSlash_data (s : String) (l : List Char) (h : s.data = l) :
    pySplitSlash s = List.map String.mk (splitChars '/' l) := by
  unfold pySplitSlash
  rw [h]

lemma normpath_parentSeg (p : String) (h : containsParentSeg (normpath p) = true) :
    pyStartsWith (normpath p) ".." = true ∧ initialSlashes p = 0 ∧ ".." ∈ pySplitSlash p := by
  by_cases hp : p = ""
  · subst hp
    exact absurd h (by decide)
  have hmem : ".." ∈ pySplitSlash (normpath p) := containsParentSeg_mem _ h
  by_cases hk : initialSlashes p = 0
  · -- relative path: the normalized components have all traversal segments leading
    have hgood : ∀ x ∈ normComps false [] (pySplitSlash p), '/' ∉ x.data := fun x hx => by
      rcases mem_normComps false (pySplitSlash p) [] x hx with hx | hx
      · simp at hx
      · exact mem_pySplitSlash_no_slash p x hx
    rw [normpath_rel_eq p hp hk] at hmem
    by_cases hj : (joinSlash (normComps false [] (pySplitSlash p)) == "") = true
    · rw [if_pos hj] at hmem
      exact absurd hmem (by decide)
    rw [if_neg hj] at hmem
    cases hcc : normComps false [] (pySplitSlash p) with
    | nil =>
      rw [hcc] at hj
      exact absurd (show (joinSlash [] == "") = true from rfl) hj
    | cons a t =>
      have hid : pySplitSlash (joinSlash (normComps false [] (pySplitSlash p)))
          = normComps false [] (pySplitSlash p) :=
        pySplitSlash_joinSlash _ (by rw [hcc]; simp) hgood
      rw [hid] at hmem
      have hdl : dotsLead (normComps false [] (pySplitSlash p)) :=
        normComps_dotsLead (pySplitSlash p) [] ⟨0, [], by simp, by simp⟩
      obtain ⟨n, restl, hceq, hnr⟩ := hdl
      have hn : n ≠ 0 := by
        intro h0
        subst h0
        rw [hceq] at hmem
        simp only [List.replicate_zero, List.nil_append] at hmem
        exact hnr hmem
      obtain ⟨m, rfl⟩ : ∃ m, n = m + 1 := ⟨n - 1, by omega⟩
      have hcons : normComps false [] (pySplitSlash p)
          = ".." :: (List.replicate m ".." ++ restl) := by
        rw [hceq, List.replicate_succ, List.cons_append]
      refine ⟨?_, hk, ?_⟩
      · rw [normpath_rel_eq p hp hk, if_neg hj, hcons]
        rcases joinSlash_cons_eq ".." (List.replicate m ".." ++ restl) with he | ⟨r, he⟩
        · rw [he]
          unfold pyStartsWith
          exact listPrefOf_self _
        · rw [he]
          unfold pyStartsWith
          rw [String.data_append]
          exact listPrefOf_append_self _ _
      · rcases mem_normComps false (pySplitSlash p) [] ".." hmem with hx | hx
        · simp at hx
        · exact hx
  · -- absolute path: normalized components never contain a traversal segment
    exfalso
    obtain ⟨k', hk'⟩ : ∃ k', initialSlashes p = k' + 1 := ⟨initialSlashes p - 1, by omega⟩
    rw [normpath_abs_eq p hp k' hk'] at hmem
    have hdots : ".." ∉ normComps true [] (pySplitSlash p) :=
      normComps_abs_noDots (pySplitSlash p) [] (by simp)
    have hdata : (String.mk (List.replicate (k' + 1) '/')
          ++ joinSlash (normComps true [] (pySplitSlash p))).data
        = List.replicate (k' + 1) '/'
          ++ (joinSlash (normComps true [] (pySplitSlash p))).data := by
      rw [String.data_append, strMk_data]
    rw [pySplitSlash_data _ _ hdata, splitChars_replicate, List.map_append,
      List.map_replicate] at hmem
    rcases List.mem_append.mp hmem with hm | hm
    · exact absurd (List.eq_of_mem_replicate hm) (by decide)
    · have hm' : ".." ∈ pySplitSlash (joinSlash (normComps true [] (pySplitSlash p))) := hm
      cases hcc : normComps true [] (pySplitSlash p) with
      | nil =>
        rw [hcc] at hm'
        exact absurd hm' (by decide)
      | cons a t =>
        rw [pySplitSlash_joinSlash _ (by rw [hcc]; simp)
          (fun x hx => by
            rcases mem_normComps true (pySplitSlash p) [] x hx with hx | hx
            · simp at hx
            · exact mem_pySplitSlash_no_slash p x hx)] at hm'
        exact hdots hm'

lemma parentSeg_not_abs (p : String) (h : containsParentSeg (normpath p) = true) :
    pyIsAbs p = false := by
  have h2 := (normpath_parentSeg p h).2.1
  unfold pyIsAbs
  by_cases hs : pyStartsWith p "/" = true
  · exfalso
    unfold initialSlashes at h2
    rw [if_pos hs] at h2
    split at h2 <;> simp_all
  · simpa using hs

lemma parentSeg_strContains (s : String) (h : containsParentSeg (normpath s) = true) :
    strContains (normpath s) ".." = true :=
  mem_pySplitSlash_strContains _ _ (containsParentSeg_mem _ h)

lemma parentSeg_dot_mem (s : String) (h : containsParentSeg (normpath s) = true) :
    '.' ∈ s.data := by
  obtain ⟨pre, post, hd⟩ := mem_pySplitSlash_parts s ".." (normpath_parentSeg s h).2.2
  rw [hd]
  simp

lemma parentSeg_strip_ne (s : String) (h : containsParentSeg (normpath s) = true) :
    pyStrip s ≠ "" := by
  intro he
  have hsp := pyStrip_all_space s he '.' (parentSeg_dot_mem s h)
  simp [pySpace] at hsp

lemma parentSeg_ne_empty (s : String) (h : containsParentSeg (normpath s) = true) :
    s ≠ "" := by
  intro he
  subst he
  exact absurd h (by decide)

/-! ### Counting and enumeration helpers -/

lemma count_filterMap {α : Type} (f : α → Option String) (l : List α) (y : String) :
    (l.filterMap f).count y = (l.filter (fun x => f x == some y)).length := by
  induction l with
  | nil => rfl
  | cons a t ih =>
    rw [List.filterMap_cons, List.filter_cons]
    cases hfa : f a with
    | none =>
      rw [if_neg (by simp [hfa])]
      exact ih
    | some b =>
      rw [List.count_cons]
      by_cases hb : b = y
      · subst hb
        rw [if_pos (by simp [hfa]), if_pos (by simp)]
        simp [ih]
      · rw [if_neg (by simp [hb]), if_neg (by simp [hfa, hb])]
        simpa using ih

lemma mem_entriesErrors (f : Nat → YVal → List String) :
    ∀ (l : List YVal) (k i : Nat) (a : YVal) (m : String),
      l.get? i = some a → m ∈ f (k + i) a → m ∈ entriesErrors f k l
  | [], _, i, _, _, h, _ => by simp at h
  | b :: t, k, 0, a, m, h, hm => by
    rw [List.get?_cons_zero] at h
    injection h with h
    subst h
    unfold entriesErrors
    exact List.mem_append.mpr (Or.inl hm)
  | b :: t, k, i + 1, a, m, h, hm => by
    rw [List.get?_cons_succ] at h
    unfold entriesErrors
    refine List.mem_append.mpr (Or.inr ?_)
    refine mem_entriesErrors f t (k + 1) i a m h ?_
    have hki : k + 1 + i = k + (i + 1) := by omega
    rw [hki]
    exact hm

lemma mem_entriesErrors0 {f : Nat → YVal → List String} {l : List YVal} {i : Nat}
    {a : YVal} {m : String} (h : l.get? i = some a) (hm : m ∈ f i a) :
    m ∈ entriesErrors f 0 l :=
  mem_entriesErrors f l 0 i a m h (by rw [Nat.zero_add]; exact hm)

lemma count_entriesErrors_zero (f : Nat → YVal → List String) (y : String) :
    ∀ (l : List YVal) (k : Nat),
      (∀ i a m, a ∈ l → m ∈ f i a → m ≠ y) → (entriesErrors f k l).count y = 0
  | [], _, _ => rfl
  | b :: t, k, h => by
    unfold entriesErrors
    rw [List.count_append]
    rw [count_entriesErrors_zero f y t (k + 1)
      (fun i a m ha hm => h i a m (List.mem_cons_of_mem b ha) hm)]
    rw [List.count_eq_zero_of_not_mem (fun hm => h k b y (List.mem_cons_self b t) hm rfl)]

/-! ### Shapes of the finding messages -/

lemma agentPre_head (i : Nat) (x : String) : (agentPre i ++ x).data.get? 0 = some 'A' := by
  unfold agentPre
  rw [String.append_assoc, String.data_append]
  rfl

lemma orphanMsg_head (md : String) :
    (ValidateIndex.orphanMsg md).data.get? 0 = some 'M' := by
  unfold ValidateIndex.orphanMsg
  rw [String.data_append]
  rfl

lemma fieldErrors_shape (i : Nat) (kvs : List (String × YVal)) (field : String) :
    ∀ m ∈ ValidateIndex.fieldErrors i kvs field, ∃ s, m = agentPre i ++ s := by
  intro m hm
  unfold ValidateIndex.fieldErrors at hm
  split at hm
  · split at hm
    · split at hm
      · split at hm
        · rw [List.mem_singleton] at hm
          subst hm
          exact ⟨_, rfl⟩
        · split at hm
          · split at hm
            · rw [List.mem_singleton] at hm
              subst hm
              exact ⟨_, rfl⟩
            · exact absurd hm (List.not_mem_nil m)
          · exact absurd hm (List.not_mem_nil m)
      · split at hm
        · exact absurd hm (List.not_mem_nil m)
        · rw [List.mem_singleton] at hm
          subst hm
          exact ⟨_, rfl⟩
    · rw [List.mem_singleton] at hm
      subst hm
      exact ⟨_, rfl⟩
  · exact absurd hm (List.not_mem_nil m)

lemma entryErrors_shape (i : Nat) (a : YVal) :
    ∀ m ∈ ValidateIndex.entryErrors i a, ∃ s, m = agentPre i ++ s := by
  intro m hm
  cases a with
  | dict kvs =>
    have hm' : m ∈
        (if !(ValidateIndex.missingKeys kvs).isEmpty
          then [ValidateIndex.missingKeysMsg i (ValidateIndex.missingKeys kvs)] else [])
        ++ (if !(ValidateIndex.extraKeys kvs).isEmpty
          then [ValidateIndex.extraKeysMsg i (ValidateIndex.extraKeys kvs)] else [])
        ++ (if hasKey kvs "name" && !(isStrVal (pyGet kvs "name"))
          then [ValidateIndex.nameStrMsg i] else [])
        ++ ValidateIndex.fieldErrors i kvs "source"
        ++ ValidateIndex.fieldErrors i kvs "target" := hm
    rcases List.mem_append.mp hm' with hm2 | hm2
    · rcases List.mem_append.mp hm2 with hm3 | hm3
      · rcases List.mem_append.mp hm3 with hm4 | hm4
        · rcases List.mem_append.mp hm4 with hm5 | hm5
          · split at hm5
            · rw [List.mem_singleton] at hm5
              subst hm5
              exact ⟨_, rfl⟩
            · exact absurd hm5 (List.not_mem_nil m)
          · split at hm5
            · rw [List.mem_singleton] at hm5
              subst hm5
              exact ⟨_, rfl⟩
            · exact absurd hm5 (List.not_mem_nil m)
        · split at hm4
          · rw [List.mem_singleton] at hm4
            subst hm4
            exact ⟨_, rfl⟩
          · exact absurd hm4 (List.not_mem_nil m)
      · exact fieldErrors_shape i kvs "source" m hm3
    · exact fieldErrors_shape i kvs "target" m hm2
  | str s => exact ⟨_, List.mem_singleton.mp hm⟩
  | int n => exact ⟨_, List.mem_singleton.mp hm⟩
  | bool b => exact ⟨_, List.mem_singleton.mp hm⟩
  | null => exact ⟨_, List.mem_singleton.mp hm⟩
  | list items => exact ⟨_, List.mem_singleton.mp hm⟩

lemma entryErrors_ne_orphan (i : Nat) (a : YVal) (md : String) :
    ∀ m ∈ ValidateIndex.entryErrors i a, m ≠ ValidateIndex.orphanMsg md := by
  intro m hm he
  obtain ⟨s, rfl⟩ := entryErrors_shape i a m hm
  have h1 := agentPre_head i s
  rw [he, orphanMsg_head md] at h1
  exact absurd h1 (by decide)

lemma pyGetD_of_pyGet (kvs : List (String × YVal)) (k : String) (d : YVal) (s : String)
    (h : pyGet kvs k = .str s) : pyGetD kvs k d = .str s := by
  unfold pyGet at h
  unfold pyGetD
  cases hf : List.find? (fun kv => kv.1 == k) kvs with
  | none =>
    rw [hf] at h
    exact YVal.noConfusion h
  | some kv =>
    rw [hf] at h
    exact h

lemma validateIndex_ok_eq (fs : List String) (kvs : List (String × YVal))
    (agents : List YVal) (hag : pyGet kvs "agents" = .list agents) :
    ValidateIndex.validate_index_yaml fs (.ok kvs)
      = entriesErrors ValidateIndex.entryErrors 0 agents
        ++ ValidateIndex.check_md_files_in_yaml kvs
            (ValidateIndex.get_md_files_in_repo fs) := by
  show (match pyGet kvs "agents" with
      | YVal.null => ["Missing \x27agents\x27 key in index.yaml"]
      | YVal.list ags => entriesErrors ValidateIndex.entryErrors 0 ags
      | _ => ["\x27agents\x27 must be a list in index.yaml"])
    ++ ValidateIndex.check_md_files_in_yaml kvs (ValidateIndex.get_md_files_in_repo fs) = _
  rw [hag]

lemma validatePy_ok_dict_eq (req : Bool) (fs : List String) (kvs : List (String × YVal))
    (agents : List YVal) (hag : pyGet kvs "agents" = .list agents) :
    Validate.validate_index_yaml req fs (.ok (.dict kvs))
      = entriesErrors (Validate.entryErrors req fs) 0 agents := by
  show (match pyGet kvs "agents" with
      | YVal.null => ["Missing \x27agents\x27 key in index.yaml"]
      | YVal.list ags => entriesErrors (Validate.entryErrors req fs) 0 ags
      | _ => ["\x27agents\x27 must be a list in index.yaml"]) = _
  rw [hag]

lemma exit_code_eq (X : List String) :
    (if X.isEmpty then (0 : Nat) else 1) = if X = [] then 0 else 1 := by
  by_cases h : X = []
  · rw [if_pos h, if_pos (by rw [h]; rfl)]
  · rw [if_neg h, if_neg (fun hh => h (List.isEmpty_iff.mp hh))]

/-! ### Claim theorems -/

/-- Claim C3, counterexample: when the branch is behind main (rev-list count
`3`) and `index.yaml` is missing, `validate_index.py` outputs TWO findings —
the sync finding aggregated with the manifest-missing finding — not exactly
one as the claim states. -/
theorem C3_counterexample :
    ValidateIndex.main (some "3") .missing []
      = .done [behindMsg, "Missing index.yaml file"] 1
    ∧ ([behindMsg, "Missing index.yaml file"] : List String).length = 2 :=
  ⟨rfl, rfl⟩

/-- Claim C3, amended: the manifest-validation subroutine of either script,
given a missing or unparsable manifest, returns exactly the single manifest
finding and performs no further manifest checks; and a run of
`validate_index.py` whose branch is not behind outputs exactly that finding.
The branch-sync finding, however, is aggregated in front of it when the
branch is behind (see the counterexample). -/
theorem C3_amended :
    (∀ fs : List String,
      ValidateIndex.validate_index_yaml fs .missing = ["Missing index.yaml file"])
    ∧ (∀ (fs : List String) (e : String),
      ValidateIndex.validate_index_yaml fs (.unparsable e)
        = ["Invalid YAML in index.yaml: " ++ e])
    ∧ (∀ (req : Bool) (fs : List String),
      Validate.validate_index_yaml req fs .missing = ["Missing index.yaml file"])
    ∧ (∀ (req : Bool) (fs : List String) (e : String),
      Validate.validate_index_yaml req fs (.unparsable e)
        = ["Invalid YAML in index.yaml: " ++ e])
    ∧ (∀ fs : List String,
      ValidateIndex.main (some "0") .missing fs = .done ["Missing index.yaml file"] 1) :=
  ⟨fun _ => rfl, fun _ _ => rfl, fun _ _ => rfl, fun _ _ _ => rfl, fun _ => rfl⟩

/-- Claim C4, counterexample: on a failed git command (`none`),
`validate_index.py` aborts the process with exit status 1 and produces no
findings at all, and `validate.py` continues but emits an empty findings
list — no sync finding describing the failure — contradicting the claim. -/
theorem C4_counterexample :
    ValidateIndex.main none (.ok [("agents", .list [])]) ["docs/a.md"] = .abort 1
    ∧ (Validate.main [("A", "docs/new.md")] none
        (.ok (.dict [("agents", .list [YVal.dict
          [("name", .str "x"), ("source", .str "docs/new.md"), ("target", .str "x.md")]])]))
        ["docs/new.md"]).1 = [] :=
  ⟨rfl, rfl⟩

/-- Claim C4, amended: on a failed version-control command, `validate.py`
does not abort but silently treats the branch as up to date (its whole run is
identical to a run whose rev-list count is `0`, so no sync finding is
produced), while `validate_index.py` exits the process with status 1 before
producing any findings. -/
theorem C4_amended :
    (∀ (changed : List (String × String)) (load : LoadResult) (fs : List String),
      Validate.main changed none load fs = Validate.main changed (some "0") load fs)
    ∧ (∀ (load : LoadResultIdx) (fs : List String),
      ValidateIndex.main none load fs = .abort 1) :=
  ⟨fun _ _ _ => rfl, fun _ _ => rfl⟩

/-- Claim C9: for every completed run of either script, the process exit
status is `0` if the printed findings sequence is empty and `1` otherwise
(`validate_index.py` runs that abort on a git failure never produce a
findings sequence and are covered by C4). -/
theorem C9_exit_status :
    (∀ (changed : List (String × String)) (revList : Option String) (load : LoadResult)
        (fs : List String),
      (Validate.main changed revList load fs).2
        = if (Validate.main changed revList load fs).1 = [] then 0 else 1)
    ∧ (∀ (revList : Option String) (load : LoadResultIdx) (fs : List String)
        (errs : List String) (code : Nat),
      ValidateIndex.main revList load fs = .done errs code
        → code = if errs = [] then 0 else 1) := by
  constructor
  · intro changed revList load fs
    unfold Validate.main
    split
    · exact exit_code_eq _
    · exact exit_code_eq _
  · intro revList load fs errs code h
    cases revList with
    | none =>
      unfold ValidateIndex.main at h
      exact ProcResult.noConfusion h
    | some out =>
      have h' : (match pyParseInt (pyStrip out) with
          | none => ProcResult.abort 1
          | some n =>
            ProcResult.done ((if n > 0 then [behindMsg] else [])
                ++ ValidateIndex.validate_index_yaml fs load)
              (if ((if n > 0 then [behindMsg] else [])
                  ++ ValidateIndex.validate_index_yaml fs load).isEmpty then 0 else 1))
          = ProcResult.done errs code := h
      cases ht : pyParseInt (pyStrip out) with
      | none =>
        rw [ht] at h'
        exact ProcResult.noConfusion h'
      | some n =>
        rw [ht] at h'
        injection h' with h1 h2
        subst h1
        subst h2
        exact exit_code_eq _

/-- Claim C9, witness: instantiated at a run with a missing manifest, exit
status 1 and a one-element findings list. -/
theorem C9_exit_status_witness :
    (1 : Nat) = if (["Missing index.yaml file"] : List String) = [] then 0 else 1 :=
  C9_exit_status.2 (some "0") .missing [] ["Missing index.yaml file"] 1 rfl

/-- Claim C10: when the changed-file set contains neither `index.yaml` nor a
newly added non-doc markdown file, `validate.py` takes the skip path: the
result does not depend on the manifest load at all (the manifest is never
read) and the findings are at most the single branch-behind sync finding. -/
theorem C10_skip_path (changed : List (String × String)) (revList : Option String)
    (fs : List String)
    (h1 : ∀ sp ∈ changed, sp.2 ≠ "index.yaml")
    (h2 : ∀ sp ∈ changed, Validate.addedNonDocMd sp = false) :
    (∀ load load2 : LoadResult,
      Validate.main changed revList load fs = Validate.main changed revList load2 fs)
    ∧ (∀ load : LoadResult,
      (Validate.main changed revList load fs).1
        = if Validate.is_behind_main revList then [behindMsg] else []) := by
  have hidx : Validate.index_yaml_changed changed = false := by
    unfold Validate.index_yaml_changed
    rw [List.any_eq_false]
    intro sp hsp
    simp only [beq_iff_eq]
    exact h1 sp hsp
  have hnew : Validate.new_non_doc_md_added changed = false := by
    unfold Validate.new_non_doc_md_added
    rw [List.any_eq_false]
    intro sp hsp
    rw [h2 sp hsp]
    simp
  constructor
  · intro load load2
    unfold Validate.main
    rw [hidx, hnew]
    exact rfl
  · intro load
    unfold Validate.main
    rw [hidx, hnew]
    exact rfl

/-- Claim C10, witness: a run whose only change is a modified `notes.txt`,
with the branch three commits behind, yields exactly the sync finding
regardless of the (here missing) manifest. -/
theorem C10_skip_path_witness :
    (Validate.main [("M", "notes.txt")] (some "3") LoadResult.missing ["a.md"]).1
      = [behindMsg] := by
  have h := (C10_skip_path [("M", "notes.txt")] (some "3") ["a.md"]
    (by decide) (by decide)).2 LoadResult.missing
  rw [h]
  rfl

/-- Claim C8, counterexample: `notes.txt` has no allowed extension and no
trailing separator, so the rules as the claim states them classify it
unsafe, but `is_valid_path` accepts any path without a separator and returns
safe. -/
theorem C8_counterexample :
    spec_path_rules "notes.txt" = false
    ∧ ValidateIndex.is_valid_path "notes.txt" = (true, none) :=
  ⟨rfl, rfl⟩

/-- Claim C8, amended: the classification of `is_valid_path`, in order:
empty or whitespace-only is unsafe; an absolute path is unsafe; a normalized
form containing `..` as a substring (not only as a whole segment) is unsafe;
otherwise the path is safe if and only if its normalized form (not the raw
path) ends in `.md`, `.yaml` or `/` case-insensitively, or contains no
separator at all.  The source's additional `norm.startswith('/')` test is
dead code, because a relative path never normalizes to an absolute one. -/
theorem C8_amended (path : String) :
    (ValidateIndex.is_valid_path path).1 = amended_path_rules path := by
  unfold ValidateIndex.is_valid_path amended_path_rules
  by_cases h0 : (path == "" || pyStrip path == "") = true
  · have hstrip : (pyStrip path == "") = true := by
      rw [Bool.or_eq_true] at h0
      rcases h0 with h0 | h0
      · rw [beq_iff_eq] at h0
        subst h0
        rfl
      · exact h0
    rw [if_pos h0, if_pos hstrip]
  · have hstrip : ¬(pyStrip path == "") = true := by
      intro hb
      exact h0 (by rw [Bool.or_eq_true]; exact Or.inr hb)
    rw [if_neg h0, if_neg hstrip]
    by_cases habs : pyIsAbs path = true
    · rw [if_pos habs, if_pos habs]
    · rw [if_neg habs, if_neg habs]
      have hslash : pyStartsWith (normpath path) "/" = false := by
        apply normpath_rel_not_slash
        unfold initialSlashes
        rw [if_neg (by unfold pyIsAbs at habs; exact habs)]
      by_cases hdots : strContains (normpath path) ".." = true
      · rw [if_pos (by rw [Bool.or_eq_true]; exact Or.inl hdots), if_pos hdots]
      · have hcond : ¬(strContains (normpath path) ".."
            || pyStartsWith (normpath path) "/") = true := by
          rw [Bool.or_eq_true]
          rintro (hc | hc)
          · exact hdots hc
          · rw [hslash] at hc
            exact Bool.false_ne_true hc
        rw [if_neg hcond, if_neg hdots]
        cases hC : (pyEndsWith (pyLower (normpath path)) ".md"
            || pyEndsWith (pyLower (normpath path)) ".yaml"
            || pyEndsWith (pyLower (normpath path)) "/"
            || !(strContains (normpath path) "/")) with
        | true => rfl
        | false => rfl

lemma hasKey_of_pyGet_str (kvs : List (String × YVal)) (k : String) (s : String)
    (h : pyGet kvs k = .str s) : hasKey kvs k = true := by
  unfold pyGet at h
  unfold hasKey listKeys
  cases hf : List.find? (fun kv => kv.1 == k) kvs with
  | none =>
    rw [hf] at h
    exact YVal.noConfusion h
  | some kv =>
    have hp := List.find?_some hf
    have hmm := List.mem_of_find?_eq_some hf
    rw [beq_iff_eq] at hp
    rw [show (kvs.map Prod.fst).contains k = (kvs.map Prod.fst).elem k from rfl]
    rw [List.elem_iff]
    exact hp ▸ List.mem_map.mpr ⟨kv, hmm, rfl⟩

lemma is_valid_path_traversal (s : String) (h : containsParentSeg (normpath s) = true) :
    ValidateIndex.is_valid_path s
      = (false, some "Invalid path patterns (e.g., \x27..\x27)") := by
  have hne : s ≠ "" := parentSeg_ne_empty s h
  have hstrip : pyStrip s ≠ "" := parentSeg_strip_ne s h
  unfold ValidateIndex.is_valid_path
  rw [if_neg ?hc1, if_neg ?hc2, if_pos ?hc3]
  case hc1 =>
    rw [Bool.or_eq_true]
    rintro (hb | hb) <;> rw [beq_iff_eq] at hb
    exacts [hne hb, hstrip hb]
  case hc2 =>
    rw [parentSeg_not_abs s h]
    exact Bool.false_ne_true
  case hc3 =>
    rw [Bool.or_eq_true]
    exact Or.inl (parentSeg_strContains s h)

lemma fieldErrors_source_str (i : Nat) (kvs : List (String × YVal)) (s : String)
    (hget : pyGet kvs "source" = .str s) (hkey : hasKey kvs "source" = true) :
    ValidateIndex.fieldErrors i kvs "source"
      = (match ValidateIndex.is_valid_path s with
         | (true, _) => []
         | (false, reason) =>
            [ValidateIndex.invalidFieldMsg i "source" (reason.getD "None")]) := by
  unfold ValidateIndex.fieldErrors
  rw [if_pos hkey, hget]
  rfl

lemma dangling_suffix_ne (t y : String) (n : Nat)
    (hn : n < (" \x27source\x27 file not found in commit: " : String).data.length)
    (hne : (" \x27source\x27 file not found in commit: " : String).data.get? n
      ≠ y.data.get? n) :
    (" \x27source\x27 file not found in commit: " ++ t) ≠ y := by
  apply str_ne_of_get _ _ n
  rw [String.data_append, List.get?_append hn]
  exact hne

lemma orphanMsg_inj {m f : String}
    (h : ValidateIndex.orphanMsg m = ValidateIndex.orphanMsg f) : m = f := by
  unfold ValidateIndex.orphanMsg at h
  have h2 := congrArg String.data h
  rw [String.data_append, String.data_append, String.data_append,
    String.data_append] at h2
  exact String.ext (List.append_cancel_right (List.append_cancel_left h2))

lemma lstrip_id (f : String) (hne : f ≠ "") (hdot : pyStartsWith f "." = false)
    (hslash : pyStartsWith f "/" = false) : pyLstripDotSlash f = f := by
  unfold pyLstripDotSlash
  cases hd : f.data with
  | nil => exact absurd (String.ext (by rw [hd])) hne
  | cons c cs =>
    have hc1 : c ≠ '.' := by
      intro he
      subst he
      have hds : pyStartsWith f "." = listPrefOf ['.'] f.data := rfl
      rw [hds, hd] at hdot
      simp [listPrefOf] at hdot
    have hc2 : c ≠ '/' := by
      intro he
      subst he
      have hds : pyStartsWith f "/" = listPrefOf ['/'] f.data := rfl
      rw [hds, hd] at hslash
      simp [listPrefOf] at hslash
    rw [List.dropWhile_cons,
      if_neg (by simp only [Bool.or_eq_true, beq_iff_eq]; rintro (he | he)
                 exacts [hc1 he, hc2 he])]
    exact String.ext (by rw [strMk_data, hd])

lemma walkName_self (f : String)
    (hmd : pyEndsWith (pyLower f) ".md" = true)
    (hskip1 : pyUpper (basename f) ≠ "README.MD")
    (hskip2 : pyUpper (basename f) ≠ "CONTRIBUTING.MD")
    (hdot : pyStartsWith f "." = false)
    (hslash : pyStartsWith f "/" = false)
    (hnorm : normpath ("./" ++ f) = f) :
    ValidateIndex.walkName f = some f := by
  have hne : f ≠ "" := by
    intro he
    rw [he] at hmd
    exact absurd hmd (by decide)
  unfold ValidateIndex.walkName
  rw [if_pos hmd, hnorm, lstrip_id f hne hdot hslash]
  have hb1 : ¬(pyUpper (basename f) == "README.MD"
      || pyUpper (basename f) == "CONTRIBUTING.MD") = true := by
    rw [Bool.or_eq_true]
    rintro (hb | hb) <;> rw [beq_iff_eq] at hb
    exacts [hskip1 hb, hskip2 hb]
  rw [if_neg hb1, if_neg (by rw [hdot]; exact Bool.false_ne_true)]

lemma sourcesContainStr_false (S : List YVal) (f : String)
    (h : ∀ v ∈ S, v ≠ .str f) : ValidateIndex.sourcesContainStr S f = false := by
  unfold ValidateIndex.sourcesContainStr
  rw [List.any_eq_false]
  intro v hv hb
  cases v with
  | str t =>
    have hb' : (t == f) = true := hb
    rw [beq_iff_eq] at hb'
    exact h _ hv (by rw [hb'])
  | int n => exact Bool.noConfusion (hb : false = true)
  | bool b => exact Bool.noConfusion (hb : false = true)
  | null => exact Bool.noConfusion (hb : false = true)
  | list l => exact Bool.noConfusion (hb : false = true)
  | dict d => exact Bool.noConfusion (hb : false = true)

/-- Claim C1, counterexample: `validate_index.py` on the scenario-B manifest
(`docs/x.md` declared but absent from the tree) yields NO findings at all —
it performs no dangling-reference (source existence) check — so the findings
sequence does not contain the one `DanglingSource` finding the claim
requires. -/
theorem C1_counterexample :
    ValidateIndex.validate_index_yaml []
      (.ok [("agents", .list [YVal.dict
        [("name", .str "x"), ("source", .str "docs/x.md"), ("target", .str "x.md")]])])
      = [] :=
  rfl

/-- Claim C1, amended: only `validate.py`, and only with source-existence
checking enabled (`require_source_exists=True`, i.e. when `index.yaml`
changed), performs the dangling-reference check: scenario B then yields
exactly one dangling finding naming `docs/x.md`, and in general every entry
whose stripped source is a safe relative path absent from the tree receives
the dangling finding.  `validate.py` performs no orphan check and
`validate_index.py` performs no dangling check, so no single engine
invocation runs both cross-reference checks. -/
theorem C1_amended :
    (Validate.validate_index_yaml true []
      (.ok (.dict [("agents", .list [YVal.dict
        [("name", .str "x"), ("source", .str "docs/x.md"), ("target", .str "x.md")]])]))
      = [Validate.danglingMsg 0 "docs/x.md"])
    ∧ (∀ (fs : List String) (i : Nat) (kvs : List (String × YVal)) (s : String),
        pyGet kvs "source" = .str s →
        pyStrip s ≠ "" →
        pyIsAbs (normpath (pyStrip s)) = false →
        pyStartsWith (normpath (pyStrip s)) ".." = false →
        osExists fs (normpath (pyStrip s)) = false →
        Validate.sourceErrors true fs i kvs = [Validate.danglingMsg i (pyStrip s)]) := by
  constructor
  · rfl
  · intro fs i kvs s hget hne habs hdd hex
    have hgd : pyGetD kvs "source" (.str "") = .str s :=
      pyGetD_of_pyGet kvs "source" _ s hget
    unfold Validate.sourceErrors
    rw [hgd]
    show (if pyStrip s != "" then
        (if pyIsAbs (normpath (pyStrip s)) || pyStartsWith (normpath (pyStrip s)) ".." then
          [Validate.unsafeSourceMsg i]
        else if !(osExists fs (normpath (pyStrip s))) then
          [Validate.danglingMsg i (pyStrip s)]
        else [])
      else []) = _
    rw [if_pos (bne_iff_ne.mpr hne), habs, hdd, hex]
    rfl

/-- Claim C1, witness: the general dangling check of `validate.py`
instantiated at entry index 4 with source `docs/x.md` and a tree holding only
`README.md`. -/
theorem C1_amended_witness :
    Validate.sourceErrors true ["README.md"] 4
      [("name", .str "x"), ("source", .str "docs/x.md"), ("target", .str "x.md")]
      = [Validate.danglingMsg 4 "docs/x.md"] :=
  C1_amended.2 ["README.md"] 4 _ "docs/x.md" rfl (by decide) (by decide) (by decide) (by decide)

/-- Claim C2, counterexample: `validate.py`, whose loop checks only the
three required fields and never the field set, yields NO findings on the
scenario-C entry `{name, source, target, extra}`, so its findings sequence
contains no schema finding naming `extra`. -/
theorem C2_counterexample :
    Validate.validate_index_yaml false []
      (.ok (.dict [("agents", .list [YVal.dict
        [("name", .str "x"), ("source", .str "docs/x.md"), ("target", .str "x.md"),
         ("extra", .str "y")]])]))
      = [] :=
  rfl

/-- Claim C2, amended: `validate_index.py` checks every mapping entry's field
set against exactly `{name, source, target}`: it emits one finding listing
every missing field and one finding listing every unexpected field (each
missing or unexpected field appears in the respective list), and scenario C
yields exactly one finding naming `extra`.  `validate.py` does not check for
unexpected fields at all (see the counterexample). -/
theorem C2_amended :
    (∀ (fs : List String) (kvs : List (String × YVal)) (agents : List YVal)
        (i : Nat) (entry : List (String × YVal)),
      pyGet kvs "agents" = .list agents →
      agents.get? i = some (.dict entry) →
      (((!(ValidateIndex.missingKeys entry).isEmpty) = true →
          ValidateIndex.missingKeysMsg i (ValidateIndex.missingKeys entry)
            ∈ ValidateIndex.validate_index_yaml fs (.ok kvs))
        ∧ (∀ k, k ∈ (["name", "source", "target"] : List String) →
            hasKey entry k = false → k ∈ ValidateIndex.missingKeys entry)
        ∧ ((!(ValidateIndex.extraKeys entry).isEmpty) = true →
          ValidateIndex.extraKeysMsg i (ValidateIndex.extraKeys entry)
            ∈ ValidateIndex.validate_index_yaml fs (.ok kvs))
        ∧ (∀ k, k ∈ listKeys entry →
            k ∉ (["name", "source", "target"] : List String) →
            k ∈ ValidateIndex.extraKeys entry)))
    ∧ (ValidateIndex.validate_index_yaml ["docs/x.md"]
        (.ok [("agents", .list [YVal.dict
          [("name", .str "x"), ("source", .str "docs/x.md"), ("target", .str "x.md"),
           ("extra", .str "y")]])])
        = [ValidateIndex.extraKeysMsg 0 ["extra"]]) := by
  constructor
  · intro fs kvs agents i entry hag hi
    rw [validateIndex_ok_eq fs kvs agents hag]
    refine ⟨?_, ?_, ?_, ?_⟩
    · intro hmiss
      refine List.mem_append.mpr (Or.inl (mem_entriesErrors0 hi ?_))
      show ValidateIndex.missingKeysMsg i (ValidateIndex.missingKeys entry) ∈
        (if !(ValidateIndex.missingKeys entry).isEmpty
          then [ValidateIndex.missingKeysMsg i (ValidateIndex.missingKeys entry)] else [])
        ++ (if !(ValidateIndex.extraKeys entry).isEmpty
          then [ValidateIndex.extraKeysMsg i (ValidateIndex.extraKeys entry)] else [])
        ++ (if hasKey entry "name" && !(isStrVal (pyGet entry "name"))
          then [ValidateIndex.nameStrMsg i] else [])
        ++ ValidateIndex.fieldErrors i entry "source"
        ++ ValidateIndex.fieldErrors i entry "target"
      rw [if_pos hmiss]
      exact List.mem_append.mpr (Or.inl (List.mem_append.mpr (Or.inl
        (List.mem_append.mpr (Or.inl (List.mem_append.mpr (Or.inl
          (List.mem_singleton.mpr rfl))))))))
    · intro k hk hnk
      unfold ValidateIndex.missingKeys
      refine List.mem_filter.mpr ⟨hk, ?_⟩
      rw [hnk]
      rfl
    · intro hextra
      refine List.mem_append.mpr (Or.inl (mem_entriesErrors0 hi ?_))
      show ValidateIndex.extraKeysMsg i (ValidateIndex.extraKeys entry) ∈
        (if !(ValidateIndex.missingKeys entry).isEmpty
          then [ValidateIndex.missingKeysMsg i (ValidateIndex.missingKeys entry)] else [])
        ++ (if !(ValidateIndex.extraKeys entry).isEmpty
          then [ValidateIndex.extraKeysMsg i (ValidateIndex.extraKeys entry)] else [])
        ++ (if hasKey entry "name" && !(isStrVal (pyGet entry "name"))
          then [ValidateIndex.nameStrMsg i] else [])
        ++ ValidateIndex.fieldErrors i entry "source"
        ++ ValidateIndex.fieldErrors i entry "target"
      rw [if_pos hextra]
      exact List.mem_append.mpr (Or.inl (List.mem_append.mpr (Or.inl
        (List.mem_append.mpr (Or.inl (List.mem_append.mpr (Or.inr
          (List.mem_singleton.mpr rfl))))))))
    · intro k hk hnk
      unfold ValidateIndex.extraKeys
      refine List.mem_filter.mpr ⟨hk, ?_⟩
      simp only [List.mem_cons, List.mem_singleton, not_or] at hnk
      simp only [Bool.not_eq_true', Bool.or_eq_false_iff, beq_eq_false_iff_ne, ne_eq]
      refine ⟨⟨hnk.1, hnk.2.1⟩, ?_⟩
      exact hnk.2.2.1
  · rfl

/-- Claim C2, witness: the universal part instantiated at an entry holding
only a `source` field: `name` is reported among the missing keys and the
missing-keys finding is in the output. -/
theorem C2_amended_witness :
    "name" ∈ ValidateIndex.missingKeys [("source", YVal.str "a.md")]
    ∧ ValidateIndex.missingKeysMsg 0 (ValidateIndex.missingKeys [("source", YVal.str "a.md")])
        ∈ ValidateIndex.validate_index_yaml []
          (.ok [("agents", .list [YVal.dict [("source", .str "a.md")]])]) := by
  have h := (C2_amended.1 [] [("agents", .list [YVal.dict [("source", YVal.str "a.md")]])]
    [YVal.dict [("source", YVal.str "a.md")]] 0 [("source", YVal.str "a.md")] rfl rfl)
  exact ⟨h.2.1 "name" (by decide) (by decide), h.1 (by decide)⟩

/-- Claim C7, counterexample: `validate_index.py` yields NO findings on an
entry whose `name` is whitespace-only (emptiness of `name` is never checked)
and whose `target` is `b.txt` (the `.md` extension of `target` is never
checked), although the claim requires a schema finding for both
violations. -/
theorem C7_counterexample :
    ValidateIndex.validate_index_yaml ["a.md"]
      (.ok [("agents", .list [YVal.dict
        [("name", .str "   "), ("source", .str "a.md"), ("target", .str "b.txt")]])])
      = [] :=
  rfl

/-- Claim C7, amended: `validate.py` enforces the claim for every entry: a
required field (`name`, `source`, `target`) that is not a string non-empty
after trimming yields the per-field schema finding, and a present string
`target` that is non-empty after trimming but does not end in `.md`
case-insensitively yields the target-extension finding.  `validate_index.py`
checks `name` only for being a string and never checks the extension of
`target` (see the counterexample). -/
theorem C7_amended (req : Bool) (fs : List String) (kvs : List (String × YVal))
    (agents : List YVal) (i : Nat) (entry : List (String × YVal))
    (hag : pyGet kvs "agents" = .list agents)
    (hi : agents.get? i = some (.dict entry)) :
    (∀ key, key ∈ (["name", "source", "target"] : List String) →
      nonEmptyStrCheck (pyGet entry key) = false →
      Validate.reqFieldMsg i key ∈ Validate.validate_index_yaml req fs (.ok (.dict kvs)))
    ∧ (∀ t : String, pyGet entry "target" = .str t →
      pyStrip t ≠ "" →
      pyEndsWith (pyLower (pyStrip t)) ".md" = false →
      Validate.targetExtMsg i ∈ Validate.validate_index_yaml req fs (.ok (.dict kvs))) := by
  rw [validatePy_ok_dict_eq req fs kvs agents hag]
  constructor
  · intro key hk hbad
    refine mem_entriesErrors0 hi ?_
    show Validate.reqFieldMsg i key ∈
      Validate.requiredFieldErrors i entry ++ Validate.targetErrors i entry
        ++ Validate.sourceErrors req fs i entry
    refine List.mem_append.mpr (Or.inl (List.mem_append.mpr (Or.inl ?_)))
    unfold Validate.requiredFieldErrors
    refine List.mem_filterMap.mpr ⟨key, hk, ?_⟩
    rw [hbad]
    rfl
  · intro t hget hne hext
    refine mem_entriesErrors0 hi ?_
    show Validate.targetExtMsg i ∈
      Validate.requiredFieldErrors i entry ++ Validate.targetErrors i entry
        ++ Validate.sourceErrors req fs i entry
    refine List.mem_append.mpr (Or.inl (List.mem_append.mpr (Or.inr ?_)))
    unfold Validate.targetErrors
    have hgd : pyGetD entry "target" (.str "") = .str t :=
      pyGetD_of_pyGet entry "target" _ t hget
    rw [hgd]
    show Validate.targetExtMsg i ∈
      (if pyStrip t != "" && !(pyEndsWith (pyLower (pyStrip t)) ".md")
        then [Validate.targetExtMsg i] else [])
    rw [if_pos (by rw [hext]; simp [bne_iff_ne.mpr hne])]
    exact List.mem_singleton.mpr rfl

/-- Claim C7, witness: the `validate.py` checks instantiated at an entry with
whitespace-only `name` and target `b.txt`: both findings appear. -/
theorem C7_amended_witness :
    Validate.reqFieldMsg 0 "name" ∈ Validate.validate_index_yaml false ["a.md"]
      (.ok (.dict [("agents", .list [YVal.dict
        [("name", .str "   "), ("source", .str "a.md"), ("target", .str "b.txt")]])]))
    ∧ Validate.targetExtMsg 0 ∈ Validate.validate_index_yaml false ["a.md"]
      (.ok (.dict [("agents", .list [YVal.dict
        [("name", .str "   "), ("source", .str "a.md"), ("target", .str "b.txt")]])])) := by
  have h := C7_amended false ["a.md"]
    [("agents", .list [YVal.dict
      [("name", .str "   "), ("source", .str "a.md"), ("target", .str "b.txt")]])]
    [YVal.dict [("name", .str "   "), ("source", .str "a.md"), ("target", .str "b.txt")]]
    0
    [("name", YVal.str "   "), ("source", YVal.str "a.md"), ("target", YVal.str "b.txt")]
    rfl rfl
  exact ⟨h.1 "name" (by decide) (by decide), h.2 "b.txt" rfl (by decide) (by decide)⟩

/-- Claim C5, counterexample: when `index.yaml` did not change,
`validate.py` calls its validator with `require_source_exists=False` and the
whole source-path block is skipped, so the scenario-D manifest with source
`../../etc/passwd` yields NO path-unsafe finding at all. -/
theorem C5_counterexample :
    Validate.validate_index_yaml false []
      (.ok (.dict [("agents", .list [YVal.dict
        [("name", .str "x"), ("source", .str "../../etc/passwd"),
         ("target", .str "x.md")]])]))
      = [] :=
  rfl

/-- Claim C5, amended: when the source checks run (`validate.py` with
`require_source_exists=True`; `validate_index.py` always), an entry whose
source string normalizes to a path containing a parent-traversal segment
receives exactly one path-unsafe finding and no dangling-source finding: in
`validate.py` the source block emits exactly the unsafe message, the
per-entry findings count it once, and no dangling message for the entry can
occur; in `validate_index.py` the source field check emits exactly the
`Invalid path patterns` finding (there is no existence check at all). -/
theorem C5_amended :
    (∀ (fs : List String) (i : Nat) (kvs : List (String × YVal)) (s : String),
      pyGet kvs "source" = .str s →
      containsParentSeg (normpath (pyStrip s)) = true →
      (Validate.sourceErrors true fs i kvs = [Validate.unsafeSourceMsg i]
        ∧ (Validate.entryErrors true fs i (.dict kvs)).count (Validate.unsafeSourceMsg i) = 1
        ∧ ∀ t : String, Validate.danglingMsg i t ∉ Validate.entryErrors true fs i (.dict kvs)))
    ∧ (∀ (i : Nat) (kvs : List (String × YVal)) (s : String),
      pyGet kvs "source" = .str s →
      containsParentSeg (normpath s) = true →
      ValidateIndex.fieldErrors i kvs "source"
        = [ValidateIndex.invalidFieldMsg i "source"
            "Invalid path patterns (e.g., \x27..\x27)"]) := by
  constructor
  · intro fs i kvs s hget hpre
    have hgd : pyGetD kvs "source" (.str "") = .str s :=
      pyGetD_of_pyGet kvs "source" _ s hget
    have hstrip : pyStrip s ≠ "" := by
      intro he
      rw [he] at hpre
      exact absurd hpre (by decide)
    have hsrc : Validate.sourceErrors true fs i kvs = [Validate.unsafeSourceMsg i] := by
      unfold Validate.sourceErrors
      rw [hgd]
      show (if pyStrip s != "" then
          (if pyIsAbs (normpath (pyStrip s)) || pyStartsWith (normpath (pyStrip s)) ".." then
            [Validate.unsafeSourceMsg i]
          else if !(osExists fs (normpath (pyStrip s))) then
            [Validate.danglingMsg i (pyStrip s)]
          else [])
        else []) = _
      rw [if_pos (bne_iff_ne.mpr hstrip),
        if_pos (by rw [Bool.or_eq_true]; exact Or.inr (normpath_parentSeg _ hpre).1)]
    refine ⟨hsrc, ?_, ?_⟩
    · show (Validate.requiredFieldErrors i kvs ++ Validate.targetErrors i kvs
          ++ Validate.sourceErrors true fs i kvs).count (Validate.unsafeSourceMsg i) = 1
      rw [List.count_append, List.count_append, hsrc]
      have hreq : (Validate.requiredFieldErrors i kvs).count
          (Validate.unsafeSourceMsg i) = 0 := by
        apply List.count_eq_zero_of_not_mem
        intro hm
        obtain ⟨key, hk, hf⟩ := List.mem_filterMap.mp hm
        have hkey3 : key = "name" ∨ key = "source" ∨ key = "target" := by simpa using hk
        split at hf
        · exact Option.noConfusion hf
        · injection hf with hf
          rcases hkey3 with rfl | rfl | rfl
          · exact absurd hf (append_right_ne _ (by decide))
          · exact absurd hf (append_right_ne _ (by decide))
          · exact absurd hf (append_right_ne _ (by decide))
      have htgt : (Validate.targetErrors i kvs).count (Validate.unsafeSourceMsg i) = 0 := by
        apply List.count_eq_zero_of_not_mem
        intro hm
        unfold Validate.targetErrors at hm
        split at hm
        · rw [List.mem_singleton] at hm
          exact absurd hm (append_right_ne _ (by decide))
        · exact absurd hm (List.not_mem_nil _)
      rw [hreq, htgt]
      simp [List.count_singleton]
    · intro t hm
      have hm' : Validate.danglingMsg i t ∈
          Validate.requiredFieldErrors i kvs ++ Validate.targetErrors i kvs
            ++ Validate.sourceErrors true fs i kvs := hm
      rw [hsrc] at hm'
      rcases List.mem_append.mp hm' with hm2 | hm2
      · rcases List.mem_append.mp hm2 with hm3 | hm3
        · obtain ⟨key, hk, hf⟩ := List.mem_filterMap.mp hm3
          have hkey3 : key = "name" ∨ key = "source" ∨ key = "target" := by simpa using hk
          split at hf
          · exact Option.noConfusion hf
          · injection hf with hf
            rcases hkey3 with rfl | rfl | rfl
            · exact absurd hf.symm
                (append_right_ne _ (dangling_suffix_ne t _ 2 (by decide) (by decide)))
            · exact absurd hf.symm
                (append_right_ne _ (dangling_suffix_ne t _ 10 (by decide) (by decide)))
            · exact absurd hf.symm
                (append_right_ne _ (dangling_suffix_ne t _ 2 (by decide) (by decide)))
        · unfold Validate.targetErrors at hm3
          split at hm3
          · rw [List.mem_singleton] at hm3
            exact absurd hm3
              (append_right_ne _ (dangling_suffix_ne t _ 2 (by decide) (by decide)))
          · exact absurd hm3 (List.not_mem_nil _)
      · rw [List.mem_singleton] at hm2
        exact absurd hm2
          (append_right_ne _ (dangling_suffix_ne t _ 1 (by decide) (by decide)))
  · intro i kvs s hget hpre
    rw [fieldErrors_source_str i kvs s hget (hasKey_of_pyGet_str kvs "source" s hget),
      is_valid_path_traversal s hpre]
    rfl

/-- Claim C5, witness: both validators instantiated at entry 0 with source
`../../etc/passwd`. -/
theorem C5_amended_witness :
    Validate.sourceErrors true [] 0
      [("name", YVal.str "x"), ("source", YVal.str "../../etc/passwd"),
       ("target", YVal.str "x.md")]
      = [Validate.unsafeSourceMsg 0]
    ∧ ValidateIndex.fieldErrors 0
        [("name", YVal.str "x"), ("source", YVal.str "../../etc/passwd"),
         ("target", YVal.str "x.md")] "source"
      = [ValidateIndex.invalidFieldMsg 0 "source"
          "Invalid path patterns (e.g., \x27..\x27)"] :=
  ⟨(C5_amended.1 [] 0
      [("name", YVal.str "x"), ("source", YVal.str "../../etc/passwd"),
       ("target", YVal.str "x.md")] "../../etc/passwd" rfl (by decide)).1,
   C5_amended.2 0
      [("name", YVal.str "x"), ("source", YVal.str "../../etc/passwd"),
       ("target", YVal.str "x.md")] "../../etc/passwd" rfl (by decide)⟩

/-- Claim C6, counterexample: the walk name of a dot-file is mangled —
`os.walk` joins `./` and `normpath(...).lstrip('./')` strips every leading
dot — so the orphan `.hidden.md` is reported under the name `hidden.md` and
no finding naming `.hidden.md` exists, although the claim requires exactly
one orphan finding naming that file. -/
theorem C6_counterexample :
    ValidateIndex.validate_index_yaml [".hidden.md"] (.ok [("agents", .list [])])
      = [ValidateIndex.orphanMsg "hidden.md"]
    ∧ ValidateIndex.orphanMsg ".hidden.md"
        ∉ ValidateIndex.validate_index_yaml [".hidden.md"] (.ok [("agents", .list [])]) := by
  refine ⟨rfl, ?_⟩
  intro hm
  have hm2 : ValidateIndex.orphanMsg ".hidden.md"
      ∈ [ValidateIndex.orphanMsg "hidden.md"] := hm
  rw [List.mem_singleton] at hm2
  exact absurd (orphanMsg_inj hm2) (by decide)

/-- Claim C6, amended: for every `.md` file of the tree whose path does not
begin with a dot or slash (dot-prefixed paths are reported under a stripped,
mangled name), whose base name is not `readme.md` or `contributing.md`
case-insensitively, that occurs exactly once in the walked tree, such that no
other tree file is reported under its name, and that is absent from every
entry's source value, the findings sequence contains exactly one orphan
finding naming that file, regardless of the manifest's entries. -/
theorem C6_amended (fs : List String) (kvs : List (String × YVal)) (agents : List YVal)
    (f : String)
    (hag : pyGet kvs "agents" = .list agents)
    (hcount : fs.count f = 1)
    (hmd : pyEndsWith (pyLower f) ".md" = true)
    (hskip1 : pyUpper (basename f) ≠ "README.MD")
    (hskip2 : pyUpper (basename f) ≠ "CONTRIBUTING.MD")
    (hdot : pyStartsWith f "." = false)
    (hslash : pyStartsWith f "/" = false)
    (hnorm : normpath ("./" ++ f) = f)
    (hcol : ∀ p ∈ fs, p ≠ f → ValidateIndex.walkName p ≠ some f)
    (hsrc : ∀ v ∈ ValidateIndex.sourceValues agents, v ≠ .str f) :
    (ValidateIndex.validate_index_yaml fs (.ok kvs)).count
      (ValidateIndex.orphanMsg f) = 1 := by
  rw [validateIndex_ok_eq fs kvs agents hag, List.count_append]
  rw [count_entriesErrors_zero ValidateIndex.entryErrors (ValidateIndex.orphanMsg f) agents 0
    (fun i a m _ hm => entryErrors_ne_orphan i a f m hm)]
  rw [Nat.zero_add]
  have hcheck : ValidateIndex.check_md_files_in_yaml kvs
      (ValidateIndex.get_md_files_in_repo fs)
      = (ValidateIndex.get_md_files_in_repo fs).filterMap (fun m =>
          if ValidateIndex.sourcesContainStr (ValidateIndex.sourceValues agents) m then none
          else some (ValidateIndex.orphanMsg m)) := by
    show (match pyGet kvs "agents" with
        | YVal.list ags =>
          (ValidateIndex.get_md_files_in_repo fs).filterMap (fun m =>
            if ValidateIndex.sourcesContainStr (ValidateIndex.sourceValues ags) m then none
            else some (ValidateIndex.orphanMsg m))
        | _ => []) = _
    rw [hag]
  rw [hcheck, count_filterMap]
  have hpred : ∀ m ∈ ValidateIndex.get_md_files_in_repo fs,
      ((if ValidateIndex.sourcesContainStr (ValidateIndex.sourceValues agents) m then none
        else some (ValidateIndex.orphanMsg m)) == some (ValidateIndex.orphanMsg f))
      = (m == f) := by
    intro m _
    by_cases hmf : m = f
    · subst hmf
      rw [sourcesContainStr_false _ _ hsrc]
      simp
    · rw [beq_eq_false_iff_ne.mpr hmf]
      split
      · rfl
      · rw [beq_eq_false_iff_ne]
        intro he
        exact hmf (orphanMsg_inj (Option.some.inj he))
  rw [List.filter_congr hpred, ← List.countP_eq_length_filter]
  show (ValidateIndex.get_md_files_in_repo fs).count f = 1
  unfold ValidateIndex.get_md_files_in_repo
  rw [count_filterMap]
  have hpred2 : ∀ p ∈ fs, (ValidateIndex.walkName p == some f) = (p == f) := by
    intro p hp
    by_cases hpf : p = f
    · subst hpf
      rw [walkName_self p hmd hskip1 hskip2 hdot hslash hnorm]
      simp
    · rw [beq_eq_false_iff_ne.mpr hpf, beq_eq_false_iff_ne]
      exact hcol p hp hpf
  rw [List.filter_congr hpred2, ← List.countP_eq_length_filter]
  exact hcount

/-- Claim C6, witness: a tree holding `docs/a.md` and `README.md` with an
empty entry list yields exactly one orphan finding naming `docs/a.md`. -/
theorem C6_amended_witness :
    (ValidateIndex.validate_index_yaml ["docs/a.md", "README.md"]
      (.ok [("agents", .list [])])).count (ValidateIndex.orphanMsg "docs/a.md") = 1 :=
  C6_amended ["docs/a.md", "README.md"] [("agents", .list [])] [] "docs/a.md"
    rfl (by decide) (by decide) (by decide) (by decide) (by decide) (by decide)
    (by decide) (by decide) (fun v hv => absurd (hv : v ∈ []) (List.not_mem_nil v))

end AwesomeAgents
